import Mathlib

/-!
# Game of Dans: a verification development of `main.go`

The simulation core of `main.go` (the `World` type, `NewWorld`, `World.init`,
`World.Update` and `neighbourCount`) is embedded as executable Lean definitions.

Modelling conventions.

* Go `int` is 64 bits wide and is modelled by `Int`, with the result of an operation
  reduced by `wrapInt` where it can leave the range `[-2^63, 2^63)`: the product
  `width*height` that `NewWorld` passes to `make`, and the index `y*w.width+x` that
  `init` writes to.  A slice of length `width*height` exists only when that product is a
  representable length, and whenever `len(area) = width*height` every index and every
  coordinate computed by `Update` and `neighbourCount` is bounded by that length, so
  no arithmetic of these two functions wraps there and they are written without
  `wrapInt`.  Allocation limits of `make` are not modelled.
* A slice `[]int` is a `List Int`.  Indexing outside `[0, len)` and `make` with a
  negative length are run-time panics; they are modelled by `Except GoPanic`.
* The global `math/rand` state is passed explicitly as a `Rand`: an arbitrary
  stream of raw naturals together with the position of the next draw.
  `rand.Intn(n)` reduces the raw value modulo `n` and panics when `n <= 0`.
* A counted `for` loop is `forLoop lo hi body`, running `body` at `lo, lo+1, ...`
  while the index is below `hi`, stopping at the first panic.
-/

namespace GameOfDans

/-- Run-time panics of the Go code that the model can raise. -/
inductive GoPanic where
  | indexOutOfRange
  | makeNegativeLen
  | intnNonPositive
  deriving DecidableEq, Repr

/-- Number of alive images, `nImg int = 3` in `main.go`. -/
def nImg : Int := 3

/-- Go arithmetic on `int` wraps around at 64 bits: `wrapInt n` is the value in
`[-2^63, 2^63)` that is congruent to `n` modulo `2^64`. -/
def wrapInt (n : Int) : Int := (n + 2 ^ 63) % 2 ^ 64 - 2 ^ 63

/-- Go `make([]int, n)`: a zeroed slice of length `n`; panics when `n < 0`. -/
def makeSlice (n : Int) : Except GoPanic (List Int) :=
  if n < 0 then .error .makeNegativeLen else .ok (List.replicate n.toNat 0)

/-- Go `a[i]` as a read; panics outside `[0, len(a))`. -/
def sliceGet (a : List Int) (i : Int) : Except GoPanic Int :=
  if i < 0 then .error .indexOutOfRange
  else
    match a[i.toNat]? with
    | some v => .ok v
    | none => .error .indexOutOfRange

/-- Go `a[i] = v`; panics outside `[0, len(a))`. -/
def sliceSet (a : List Int) (i : Int) (v : Int) : Except GoPanic (List Int) :=
  if i < 0 then .error .indexOutOfRange
  else if i.toNat < a.length then .ok (a.set i.toNat v)
  else .error .indexOutOfRange

/-- The random source: a stream of raw draws and the position of the next one. -/
structure Rand where
  stream : Nat → Nat
  pos : Nat

/-- Go `rand.Intn(n)`: a value in `[0, n)`, consuming one draw; panics when `n <= 0`. -/
def Rand.Intn (r : Rand) (n : Int) : Except GoPanic (Int × Rand) :=
  if n ≤ 0 then .error .intnNonPositive
  else .ok (((r.stream r.pos % n.toNat : Nat) : Int), { r with pos := r.pos + 1 })

/-- Runs `body lo`, `body (lo+1)`, ... for `n` iterations, stopping at the first panic. -/
def forRange {σ : Type} (lo : Int) : Nat → (Int → σ → Except GoPanic σ) → σ → Except GoPanic σ
  | 0, _, s => .ok s
  | n + 1, body, s =>
    match body lo s with
    | .error e => .error e
    | .ok s1 => forRange (lo + 1) n body s1

/-- Go `for i := lo; i < hi; i++ { body }`. -/
def forLoop {σ : Type} (lo hi : Int) (body : Int → σ → Except GoPanic σ) (s : σ) :
    Except GoPanic σ :=
  forRange lo (hi - lo).toNat body s

/-- World represents the game state. -/
structure World where
  area : List Int
  width : Int
  height : Int

/-- The body of the inner loop of `neighbourCount` at offsets `(i, j)`, with the
running count `c`. -/
def neighbourStep (a : List Int) (width height x y j i : Int) (c : Int) : Except GoPanic Int :=
  if i = 0 ∧ j = 0 then .ok c
  else
    let x2 := x + i
    let y2 := y + j
    if x2 < 0 ∨ y2 < 0 ∨ width ≤ x2 ∨ height ≤ y2 then .ok c
    else
      match sliceGet a (y2 * width + x2) with
      | .error e => .error e
      | .ok v => if v > 0 then .ok (c + 1) else .ok c

/-- Embedding of `neighbourCount`: the Moore neighborhood of `(x, y)`. -/
def neighbourCount (a : List Int) (width height x y : Int) : Except GoPanic Int :=
  forLoop (-1) 2 (fun j c => forLoop (-1) 2 (fun i c1 => neighbourStep a width height x y j i c1) c) 0

/-- The body of the inner loop of `World.Update` at cell `(x, y)`; the state is the
buffer `next` and the random source. -/
def updateCell (w : World) (y x : Int) (st : List Int × Rand) : Except GoPanic (List Int × Rand) :=
  match neighbourCount w.area w.width w.height x y with
  | .error e => .error e
  | .ok pop =>
    if pop < 2 then
      -- rule 1
      match sliceSet st.1 (y * w.width + x) 0 with
      | .error e => .error e
      | .ok next => .ok (next, st.2)
    else
      -- the guard of rule 2; `&&` reads `w.area` only when the count is 2 or 3
      let guard2 : Except GoPanic Bool :=
        if pop = 2 ∨ pop = 3 then
          match sliceGet w.area (y * w.width + x) with
          | .error e => .error e
          | .ok cur => .ok (decide (cur > 0))
        else .ok false
      match guard2 with
      | .error e => .error e
      | .ok true =>
        -- rule 2
        match st.2.Intn nImg with
        | .error e => .error e
        | .ok (k, r1) =>
          match sliceSet st.1 (y * w.width + x) (k + 1) with
          | .error e => .error e
          | .ok next => .ok (next, r1)
      | .ok false =>
        if pop > 3 then
          -- rule 3
          match sliceSet st.1 (y * w.width + x) 0 with
          | .error e => .error e
          | .ok next => .ok (next, st.2)
        else if pop = 3 then
          -- rule 4
          match st.2.Intn nImg with
          | .error e => .error e
          | .ok (k, r1) =>
            match sliceSet st.1 (y * w.width + x) (k + 1) with
            | .error e => .error e
            | .ok next => .ok (next, r1)
        else .ok st

/-- Embedding of `World.Update`: game state advanced by one tick. -/
def World.Update (w : World) (r : Rand) : Except GoPanic (World × Rand) :=
  match makeSlice (w.width * w.height) with
  | .error e => .error e
  | .ok next0 =>
    match forLoop 0 w.height
        (fun y st => forLoop 0 w.width (fun x st1 => updateCell w y x st1) st) (next0, r) with
    | .error e => .error e
    | .ok (next, r1) => .ok ({ w with area := next }, r1)

/-- The body of the loop of `World.init`: one random cell is set to a random alive value. -/
def initStep (st : World × Rand) : Except GoPanic (World × Rand) :=
  match st.2.Intn st.1.width with
  | .error e => .error e
  | .ok (x, r1) =>
    match r1.Intn st.1.height with
    | .error e => .error e
    | .ok (y, r2) =>
      match r2.Intn nImg with
      | .error e => .error e
      | .ok (k, r3) =>
        match sliceSet st.1.area (wrapInt (wrapInt (y * st.1.width) + x)) (k + 1) with
        | .error e => .error e
        | .ok area => .ok ({ st.1 with area := area }, r3)

/-- Embedding of `World.init`: inits world with a random state. -/
def World.init (w : World) (maxLiveCells : Int) (r : Rand) : Except GoPanic (World × Rand) :=
  forLoop 0 maxLiveCells (fun _ st => initStep st) (w, r)

/-- Embedding of `NewWorld`: creates a new world. -/
def NewWorld (width height : Int) (maxInitLiveCells : Int) (r : Rand) :
    Except GoPanic (World × Rand) :=
  match makeSlice (wrapInt (width * height)) with
  | .error e => .error e
  | .ok area => World.init { area := area, width := width, height := height } maxInitLiveCells r

/-- The world after `k` successive calls of `Update`, threading the random source. -/
def updateN : Nat → World → Rand → Except GoPanic (World × Rand)
  | 0, w, r => .ok (w, r)
  | k + 1, w, r =>
    match w.Update r with
    | .error e => .error e
    | .ok (w1, r1) => updateN k w1 r1

/-- Specification side of the neighbour count: whether the position at offset `(i, j)`
from `(x, y)` lies inside the grid and holds a value `> 0`. -/
def liveNeighbour (a : List Int) (width height x y : Int) (p : Int × Int) : Bool :=
  decide (0 ≤ x + p.1 ∧ x + p.1 < width ∧ 0 ≤ y + p.2 ∧ y + p.2 < height) &&
    (match a[((y + p.2) * width + (x + p.1)).toNat]? with
     | some v => decide (v > 0)
     | none => false)

/-- The pairs `(i, j)` of `{-1,0,1} x {-1,0,1}` other than `(0, 0)`. -/
def mooreOffsets : List (Int × Int) :=
  (List.product [-1, 0, 1] [-1, 0, 1]).filter (fun p => p ≠ (0, 0))

/-- Specification side of the neighbour count: the number of offsets in
`mooreOffsets` whose position is inside the grid and alive. -/
def mooreCount (a : List Int) (width height x y : Int) : Int :=
  ((mooreOffsets.filter (liveNeighbour a width height x y)).length : Int)

/-- The classical Game of Life rule on liveness: a cell is alive in the next
generation iff it has three live neighbours, or is alive and has two. -/
def lifeRule (alive : Bool) (pop : Int) : Bool :=
  decide (pop = 3) || (alive && decide (pop = 2))

/-- Whether cell `(x, y)` has been visited when the loops of `Update` stand at row `cy`,
column `cx`. -/
def processed (cy cx y x : Int) : Prop := y < cy ∨ (y = cy ∧ x < cx)

/-- Whether the classical rule makes cell `(x, y)` of `w` alive in the next generation. -/
def cellAlive (w : World) (x y : Int) : Bool :=
  lifeRule (decide (w.area.getD (y * w.width + x).toNat 0 > 0))
    (mooreCount w.area w.width w.height x y)

/-- What `Update` may write for cell `(x, y)`: an alive value in `[1, 3]` when the rule
makes the cell alive, `0` otherwise. -/
def CellSpec (w : World) (x y v : Int) : Prop :=
  (cellAlive w x y = true → 1 ≤ v ∧ v ≤ 3) ∧ (cellAlive w x y = false → v = 0)

/-- Loop invariant of `World.Update` when the loops stand at row `cy`, column `cx`, for the
buffer and random source `st`; `r0` is the random source at entry. -/
structure UpdInv (w : World) (r0 : Rand) (cy cx : Int) (st : List Int × Rand) : Prop where
  len : (st.1.length : Int) = w.width * w.height
  cells : ∀ x y v, 0 ≤ x → x < w.width → 0 ≤ y → y < w.height →
    st.1[(y * w.width + x).toNat]? = some v →
      (processed cy cx y x → CellSpec w x y v) ∧ (¬ processed cy cx y x → v = 0)
  origin : ∀ (n : Nat) (v : Int), st.1[n]? = some v → v ≠ 0 →
    ∃ x y, 0 ≤ x ∧ x < w.width ∧ 0 ≤ y ∧ y < w.height ∧ (n : Int) = y * w.width + x
  stream : st.2.stream = r0.stream
  pos : r0.pos ≤ st.2.pos
  quiet : (∀ x y, 0 ≤ x → x < w.width → 0 ≤ y → y < w.height → processed cy cx y x →
    cellAlive w x y = false) → st.2 = r0

/-- A well-formed world of the given dimensions: the fields hold them, the area has
`width*height` entries and every entry is `0` or an alive value in `[1, nImg]`. -/
def WorldOK (W H : Int) (w : World) : Prop :=
  w.width = W ∧ w.height = H ∧ (w.area.length : Int) = W * H ∧
    ∀ v ∈ w.area, 0 ≤ v ∧ v ≤ nImg

/-- A 3x3 world whose only live cells are three neighbours of the dead centre cell. -/
def birthWorld : World := { area := [1, 1, 0, 1, 0, 0, 0, 0, 0], width := 3, height := 3 }

/-- A 3x3 world whose top row is alive: the dead cell `(0, 1)` and the live cell `(1, 0)`
both have exactly two live neighbours. -/
def twoNeighbours : World := { area := [2, 1, 3, 0, 0, 0, 0, 0, 0], width := 3, height := 3 }

/-- The blinker with other alive variants: same live/dead pattern as `blinker`. -/
def blinkerRecoloured : World :=
  { area := [0, 3, 0, 0, 2, 0, 0, 3, 0], width := 3, height := 3 }

/-- The number of live cells of an area: the entries with a value `> 0`. -/
def liveCells (a : List Int) : Nat := a.countP (fun v => decide (v > 0))

/-- The four `case` clauses of the switch in `World.Update`, in source order. -/
inductive Rule where
  | rule1
  | rule2
  | rule3
  | rule4
  deriving DecidableEq, Repr

/-- The order in which `World.Update` tries the cases. -/
def sourceOrder : List Rule := [.rule1, .rule2, .rule3, .rule4]

/-- The guard of a case of the switch, for the count `pop` at cell `(x, y)`; the guard of
rule 2 reads `w.area` only when the count is 2 or 3. -/
def caseGuard (w : World) (y x pop : Int) : Rule → Except GoPanic Bool
  | .rule1 => .ok (decide (pop < 2))
  | .rule2 =>
    if pop = 2 ∨ pop = 3 then
      match sliceGet w.area (y * w.width + x) with
      | .error e => .error e
      | .ok cur => .ok (decide (cur > 0))
    else .ok false
  | .rule3 => .ok (decide (pop > 3))
  | .rule4 => .ok (decide (pop = 3))

/-- The body of a case of the switch at cell `(x, y)`, on the buffer and random source `st`. -/
def caseBody (w : World) (y x : Int) (st : List Int × Rand) :
    Rule → Except GoPanic (List Int × Rand)
  | .rule1 =>
    match sliceSet st.1 (y * w.width + x) 0 with
    | .error e => .error e
    | .ok next => .ok (next, st.2)
  | .rule2 =>
    match st.2.Intn nImg with
    | .error e => .error e
    | .ok (k, r1) =>
      match sliceSet st.1 (y * w.width + x) (k + 1) with
      | .error e => .error e
      | .ok next => .ok (next, r1)
  | .rule3 =>
    match sliceSet st.1 (y * w.width + x) 0 with
    | .error e => .error e
    | .ok next => .ok (next, st.2)
  | .rule4 =>
    match st.2.Intn nImg with
    | .error e => .error e
    | .ok (k, r1) =>
      match sliceSet st.1 (y * w.width + x) (k + 1) with
      | .error e => .error e
      | .ok next => .ok (next, r1)

/-- A Go expression switch over the listed cases: the guards are evaluated in order, the body
of the first case whose guard holds runs, and with no match the state is left as it is. -/
def runSwitch (w : World) (y x pop : Int) (st : List Int × Rand) :
    List Rule → Except GoPanic (List Int × Rand)
  | [] => .ok st
  | k :: ks =>
    match caseGuard w y x pop k with
    | .error e => .error e
    | .ok true => caseBody w y x st k
    | .ok false => runSwitch w y x pop st ks

/-- The loop body of `World.Update` with the cases of its switch tried in the given order. -/
def updateCellOrdered (order : List Rule) (w : World) (y x : Int) (st : List Int × Rand) :
    Except GoPanic (List Int × Rand) :=
  match neighbourCount w.area w.width w.height x y with
  | .error e => .error e
  | .ok pop => runSwitch w y x pop st order

/-- The variant of `World.Update` whose switch tries its cases in the given order. -/
def World.UpdateOrdered (order : List Rule) (w : World) (r : Rand) :
    Except GoPanic (World × Rand) :=
  match makeSlice (w.width * w.height) with
  | .error e => .error e
  | .ok next0 =>
    match forLoop 0 w.height
        (fun y st => forLoop 0 w.width (fun x st1 => updateCellOrdered order w y x st1) st)
        (next0, r) with
    | .error e => .error e
    | .ok (next, r1) => .ok ({ w with area := next }, r1)

/-- Constant `screenWidth` of `main.go`. -/
def screenWidth : Int := 16

/-- Constant `screenHeight` of `main.go`. -/
def screenHeight : Int := 16

/-- The coordinates `(x, y)` that `Game.Draw` computes for index `i` of the area, for screen
constants `sw` and `sh`: `y := i / sw` and `x := i % sh`, with Go's truncating division and
remainder. -/
def drawCoordsOf (sw sh i : Int) : Int × Int := (Int.tmod i sh, Int.tdiv i sw)

/-- The coordinates computed by `Game.Draw` with the constants of `main.go`. -/
def drawCoords (i : Int) : Int × Int := drawCoordsOf screenWidth screenHeight i

/-- A 3x3 world with no live cell, holding zero and negative values. -/
def deadWorld : World := { area := [0, -1, 0, 0, 0, -4, 0, 0, 0], width := 3, height := 3 }

/-- A 3x3 world whose only live cell is the centre. -/
def loneCell : World := { area := [0, 0, 0, 0, 2, 0, 0, 0, 0], width := 3, height := 3 }

/-- A 3x3 world holding a vertical blinker. -/
def blinker : World := { area := [0, 1, 0, 0, 1, 0, 0, 1, 0], width := 3, height := 3 }

/-- A 3x3 world in which every cell is alive with some variant. -/
def fullWorld : World := { area := [1, 2, 3, 3, 2, 1, 1, 1, 2], width := 3, height := 3 }

/-- A random source whose raw draws are `0, 1, 2, ...`. -/
def countingRand : Rand := { stream := fun i => i, pos := 0 }


theorem idx_bounds {W H x y : Int} (hx0 : 0 ≤ x) (hx : x < W) (hy0 : 0 ≤ y) (hy : y < H) :
    0 ≤ y * W + x ∧ y * W + x < W * H := by
  have hW : 0 < W := by omega
  constructor
  · have := mul_nonneg hy0 hW.le
    omega
  · have h1 : (y + 1) * W ≤ H * W := mul_le_mul_of_nonneg_right (by omega) hW.le
    have h2 : (y + 1) * W = y * W + W := by ring
    have h3 : H * W = W * H := mul_comm _ _
    omega

theorem idx_inj {W x y x1 y1 : Int} (hx0 : 0 ≤ x) (hx : x < W) (hx10 : 0 ≤ x1) (hx1 : x1 < W)
    (h : y * W + x = y1 * W + x1) : x = x1 ∧ y = y1 := by
  have hW : 0 < W := by omega
  have hy : y = y1 := by
    rcases lt_trichotomy y y1 with hlt | heq | hgt
    · exfalso
      have h1 : (y + 1) * W ≤ y1 * W := mul_le_mul_of_nonneg_right (by omega) hW.le
      have h2 : (y + 1) * W = y * W + W := by ring
      omega
    · exact heq
    · exfalso
      have h1 : (y1 + 1) * W ≤ y * W := mul_le_mul_of_nonneg_right (by omega) hW.le
      have h2 : (y1 + 1) * W = y1 * W + W := by ring
      omega
  subst hy
  exact ⟨by omega, rfl⟩

theorem sliceGet_of_lt {a : List Int} {i : Int} (h0 : 0 ≤ i) (h : i < a.length) :
    sliceGet a i = .ok (a.getD i.toNat 0) := by
  have hlt : i.toNat < a.length := by omega
  simp [sliceGet, not_lt.mpr h0, List.getElem?_eq_getElem hlt, List.getD_eq_getElem _ _ hlt]

theorem neighbourStep_eq {a : List Int} {W H : Int} (hlen : (a.length : Int) = W * H)
    (x y j i c : Int) :
    neighbourStep a W H x y j i c =
      .ok (c + if (i, j) ≠ (0, 0) ∧ liveNeighbour a W H x y (i, j) = true then 1 else 0) := by
  unfold neighbourStep
  by_cases h0 : i = 0 ∧ j = 0
  · simp [h0]
  · have hne : (i, j) ≠ (0, 0) := by
      intro h
      exact h0 ⟨congrArg Prod.fst h, congrArg Prod.snd h⟩
    simp only [h0, if_false, hne, ne_eq, not_false_eq_true, true_and]
    by_cases hb : x + i < 0 ∨ y + j < 0 ∨ W ≤ x + i ∨ H ≤ y + j
    · have : liveNeighbour a W H x y (i, j) = false := by
        simp only [liveNeighbour, Bool.and_eq_false_imp, decide_eq_true_eq]
        intro h
        omega
      simp [hb, this]
    · have hin : 0 ≤ x + i ∧ x + i < W ∧ 0 ≤ y + j ∧ y + j < H := by omega
      have hidx := idx_bounds hin.1 hin.2.1 hin.2.2.1 hin.2.2.2
      have hlt0 : (y + j) * W + (x + i) < (a.length : Int) := by rw [hlen]; exact hidx.2
      have hlt : ((y + j) * W + (x + i)).toNat < a.length := by omega
      simp only [hb, if_false, sliceGet_of_lt hidx.1 hlt0, liveNeighbour, hin,
        and_self, decide_True, Bool.true_and, List.getElem?_eq_getElem hlt,
        List.getD_eq_getElem _ _ hlt, decide_eq_true_eq]
      split_ifs <;> simp

theorem mooreOffsets_eq : mooreOffsets =
    [(-1, -1), (-1, 0), (-1, 1), (0, -1), (0, 1), (1, -1), (1, 0), (1, 1)] := by decide

theorem neighbourCount_eq_mooreCount {a : List Int} {W H : Int}
    (hlen : (a.length : Int) = W * H) (x y : Int) :
    neighbourCount a W H x y = .ok (mooreCount a W H x y) := by
  have h3 : ((2 : Int) - (-1)).toNat = 3 := by decide
  simp only [neighbourCount, forLoop, h3, forRange, neighbourStep_eq hlen, mooreCount,
    mooreOffsets_eq, ← List.countP_eq_length_filter, List.countP_cons, List.countP_nil]
  have e1 : (-1 + 1 : Int) = 0 := rfl
  have e2 : (-1 + 1 + 1 : Int) = 1 := rfl
  have n1 : ((-1 : Int), (-1 : Int)) ≠ (0, 0) := by decide
  have n2 : ((0 : Int), (-1 : Int)) ≠ (0, 0) := by decide
  have n3 : ((1 : Int), (-1 : Int)) ≠ (0, 0) := by decide
  have n4 : ((-1 : Int), (0 : Int)) ≠ (0, 0) := by decide
  have n5 : ((1 : Int), (0 : Int)) ≠ (0, 0) := by decide
  have n6 : ((-1 : Int), (1 : Int)) ≠ (0, 0) := by decide
  have n7 : ((0 : Int), (1 : Int)) ≠ (0, 0) := by decide
  have n8 : ((1 : Int), (1 : Int)) ≠ (0, 0) := by decide
  simp only [e1, e2, n1, n2, n3, n4, n5, n6, n7, n8, ne_eq, not_true_eq_false,
    not_false_eq_true, true_and, false_and, if_false, add_zero, zero_add]
  congr 1
  push_cast
  ring

theorem forRange_inv {σ : Type} (I : Int → σ → Prop) (body : Int → σ → Except GoPanic σ) :
    ∀ (n : Nat) (lo : Int) (s : σ), I lo s →
      (∀ i t, lo ≤ i → i < lo + n → I i t → ∃ t1, body i t = .ok t1 ∧ I (i + 1) t1) →
      ∃ s1, forRange lo n body s = .ok s1 ∧ I (lo + n) s1 := by
  intro n
  induction n with
  | zero =>
    intro lo s h0 _
    exact ⟨s, rfl, by simpa using h0⟩
  | succ k ih =>
    intro lo s h0 hstep
    obtain ⟨t1, hb, hI⟩ := hstep lo s le_rfl (by push_cast; omega) h0
    obtain ⟨s1, hr, hI1⟩ := ih (lo + 1) t1 hI (fun i t hi hi2 hIi =>
      hstep i t (by omega) (by push_cast; omega) hIi)
    refine ⟨s1, ?_, ?_⟩
    · simp only [forRange, hb]
      exact hr
    · have e : lo + ((k + 1 : Nat) : Int) = lo + 1 + (k : Int) := by push_cast; ring
      rw [e]
      exact hI1

theorem forLoop_inv {σ : Type} (I : Int → σ → Prop) (body : Int → σ → Except GoPanic σ)
    (lo hi : Int) (s : σ) (h0 : I lo s)
    (hstep : ∀ i t, lo ≤ i → i < hi → I i t → ∃ t1, body i t = .ok t1 ∧ I (i + 1) t1) :
    ∃ s1, forLoop lo hi body s = .ok s1 ∧ I (max lo hi) s1 := by
  have e : lo + ((hi - lo).toNat : Int) = max lo hi := by
    rcases le_total lo hi with h | h
    · rw [max_eq_right h]; omega
    · rw [max_eq_left h]; omega
  obtain ⟨s1, h1, h2⟩ := forRange_inv I body (hi - lo).toNat lo s h0
    (fun i t hi1 hi2 hI => hstep i t hi1 (by omega) hI)
  exact ⟨s1, h1, e ▸ h2⟩

theorem sliceSet_of_lt {a : List Int} {i : Int} (h0 : 0 ≤ i) (h : i < a.length) (v : Int) :
    sliceSet a i v = .ok (a.set i.toNat v) := by
  have hlt : i.toNat < a.length := by omega
  simp [sliceSet, not_lt.mpr h0, hlt]

theorem updateCell_eq {w : World} (hlen : (w.area.length : Int) = w.width * w.height)
    {x y : Int} (hx0 : 0 ≤ x) (hx : x < w.width) (hy0 : 0 ≤ y) (hy : y < w.height)
    (next : List Int) (r : Rand) (hnext : (next.length : Int) = w.width * w.height) :
    updateCell w y x (next, r) = .ok (
      if cellAlive w x y = true then
        (next.set (y * w.width + x).toNat (((r.stream r.pos % 3 : Nat) : Int) + 1),
          { r with pos := r.pos + 1 })
      else if mooreCount w.area w.width w.height x y = 2 then (next, r)
      else (next.set (y * w.width + x).toNat 0, r)) := by
  have hidx := idx_bounds hx0 hx hy0 hy
  have h1 : y * w.width + x < (w.area.length : Int) := by rw [hlen]; exact hidx.2
  have h2 : y * w.width + x < (next.length : Int) := by rw [hnext]; exact hidx.2
  have h3 : (3 : Int).toNat = 3 := rfl
  simp only [updateCell, neighbourCount_eq_mooreCount hlen, sliceGet_of_lt hidx.1 h1,
    sliceSet_of_lt hidx.1 h2, Rand.Intn, nImg, cellAlive, lifeRule, h3]
  by_cases hc : w.area.getD (y * w.width + x).toNat 0 > 0 <;>
  rcases lt_or_le (mooreCount w.area w.width w.height x y) 2 with hp | hp <;>
  simp only [List.getD_eq_getElem?_getD, gt_iff_lt] at hc
  all_goals first
    | (have hp2 : mooreCount w.area w.width w.height x y ≠ 2 := by omega
       have hp3 : mooreCount w.area w.width w.height x y ≠ 3 := by omega
       simp [hc, hp, hp2, hp3])
    | (rcases eq_or_ne (mooreCount w.area w.width w.height x y) 2 with hp2 | hp2
       · simp [hc, hp2]
       · rcases eq_or_ne (mooreCount w.area w.width w.height x y) 3 with hp3 | hp3
         · simp [hc, hp3]
         · have hn : ¬ mooreCount w.area w.width w.height x y < 2 := by omega
           have hg : mooreCount w.area w.width w.height x y > 3 := by omega
           simp [hc, hn, hg, hp2, hp3])


theorem set_zero_of_getElem?_zero {l : List Int} {i : Nat} (h : l[i]? = some 0) :
    l.set i 0 = l := by
  apply List.ext_getElem?
  intro n
  by_cases hn : i = n
  · subst hn
    have hlt : i < l.length := by
      by_contra hge
      rw [List.getElem?_eq_none (by omega)] at h
      exact Option.noConfusion h
    rw [List.getElem?_set_self hlt, h]
  · rw [List.getElem?_set_ne hn]

theorem UpdInv_set {w : World} {r0 : Rand} {x y : Int}
    (hx0 : 0 ≤ x) (hx : x < w.width) (hy0 : 0 ≤ y) (hy : y < w.height)
    {next : List Int} {r : Rand} (r1 : Rand) (h : UpdInv w r0 y x (next, r)) {v : Int}
    (hv : CellSpec w x y v) (hs : r1.stream = r.stream) (hp : r.pos ≤ r1.pos)
    (hq : cellAlive w x y = false → r1 = r) :
    UpdInv w r0 y (x + 1) (next.set (y * w.width + x).toNat v, r1) := by
  have hidx := idx_bounds hx0 hx hy0 hy
  have hlen := h.len
  have hilt : (y * w.width + x).toNat < next.length := by
    have : y * w.width + x < (next.length : Int) := by
      rw [show ((next, r).1.length : Int) = (next.length : Int) from rfl] at hlen
      rw [hlen]; exact hidx.2
    omega
  refine ⟨?_, ?_, ?_, ?_, ?_, ?_⟩
  · simpa using h.len
  · intro x1 y1 v1 hx10 hx1 hy10 hy1 hget
    by_cases hsame : x1 = x ∧ y1 = y
    · obtain ⟨rfl, rfl⟩ := hsame
      simp only [List.getElem?_set_self hilt, Option.some.injEq] at hget
      subst hget
      refine ⟨fun _ => hv, fun hn => ?_⟩
      exact absurd (Or.inr ⟨rfl, by omega⟩) hn
    · have hne : (y * w.width + x).toNat ≠ (y1 * w.width + x1).toNat := by
        intro he
        have hidx1 := idx_bounds hx10 hx1 hy10 hy1
        have : y * w.width + x = y1 * w.width + x1 := by omega
        have := idx_inj hx0 hx hx10 hx1 this
        exact hsame ⟨this.1.symm, this.2.symm⟩
      simp only [List.getElem?_set_ne hne] at hget
      have hc := h.cells x1 y1 v1 hx10 hx1 hy10 hy1 hget
      have hiff : processed y (x + 1) y1 x1 ↔ processed y x y1 x1 := by
        unfold processed
        constructor
        · rintro (h1 | ⟨h1, h2⟩)
          · exact Or.inl h1
          · refine Or.inr ⟨h1, ?_⟩
            by_contra hge
            exact hsame ⟨by omega, h1⟩
        · rintro (h1 | ⟨h1, h2⟩)
          · exact Or.inl h1
          · exact Or.inr ⟨h1, by omega⟩
      rw [hiff]
      exact hc
  · intro n v1 hget hv1
    by_cases hn : (y * w.width + x).toNat = n
    · exact ⟨x, y, hx0, hx, hy0, hy, by omega⟩
    · simp only [List.getElem?_set_ne hn] at hget
      exact h.origin n v1 hget hv1
  · exact hs.trans h.stream
  · exact le_trans h.pos hp
  · intro hall
    have hrr0 : r = r0 := h.quiet (fun x1 y1 a b c d hpr =>
      hall x1 y1 a b c d (by
        rcases hpr with h1 | ⟨h1, h2⟩
        · exact Or.inl h1
        · exact Or.inr ⟨h1, by omega⟩))
    have := hq (hall x y hx0 hx hy0 hy (Or.inr ⟨rfl, by omega⟩))
    exact this.trans hrr0

theorem UpdInv_step {w : World} (hlen : (w.area.length : Int) = w.width * w.height)
    {r0 : Rand} {x y : Int} (hx0 : 0 ≤ x) (hx : x < w.width) (hy0 : 0 ≤ y) (hy : y < w.height)
    (st : List Int × Rand) (h : UpdInv w r0 y x st) :
    ∃ st1, updateCell w y x st = .ok st1 ∧ UpdInv w r0 y (x + 1) st1 := by
  obtain ⟨next, r⟩ := st
  have hidx := idx_bounds hx0 hx hy0 hy
  have hnl : (next.length : Int) = w.width * w.height := h.len
  rw [updateCell_eq hlen hx0 hx hy0 hy next r hnl]
  refine ⟨_, rfl, ?_⟩
  by_cases ha : cellAlive w x y = true
  · rw [if_pos ha]
    refine UpdInv_set hx0 hx hy0 hy _ h ⟨fun _ => ?_, fun hf => ?_⟩ rfl (Nat.le_succ _)
      (fun hf => ?_)
    · have := Nat.mod_lt (r.stream r.pos) (by decide : 0 < 3)
      constructor <;> omega
    · rw [ha] at hf; exact Bool.noConfusion hf
    · rw [ha] at hf; exact Bool.noConfusion hf
  · rw [if_neg ha]
    have hspec : CellSpec w x y 0 := ⟨fun ht => absurd ht ha, fun _ => rfl⟩
    have hset := UpdInv_set hx0 hx hy0 hy r h hspec rfl le_rfl (fun _ => rfl)
    by_cases hp : mooreCount w.area w.width w.height x y = 2
    · rw [if_pos hp]
      have hilt : (y * w.width + x).toNat < next.length := by
        have : y * w.width + x < (next.length : Int) := by rw [hnl]; exact hidx.2
        omega
      have hz : next[(y * w.width + x).toNat]? = some 0 := by
        rw [List.getElem?_eq_getElem hilt]
        have := (h.cells x y _ hx0 hx hy0 hy (List.getElem?_eq_getElem hilt)).2
          (by rintro (h1 | ⟨_, h2⟩) <;> omega)
        rw [this]
      rw [set_zero_of_getElem?_zero hz] at hset
      exact hset
    · rw [if_neg hp]
      exact hset

theorem UpdInv_row {w : World} {r0 : Rand} {y : Int} {st : List Int × Rand}
    (h : UpdInv w r0 y (max 0 w.width) st) : UpdInv w r0 (y + 1) 0 st := by
  have hiff : ∀ x1 y1 : Int, 0 ≤ x1 → x1 < w.width →
      (processed (y + 1) 0 y1 x1 ↔ processed y (max 0 w.width) y1 x1) := by
    intro x1 y1 h0 h1
    unfold processed
    constructor
    · rintro (h2 | ⟨_, h3⟩)
      · rcases lt_or_eq_of_le (show y1 ≤ y by omega) with h4 | h4
        · exact Or.inl h4
        · exact Or.inr ⟨h4, lt_of_lt_of_le h1 (le_max_right _ _)⟩
      · omega
    · rintro (h2 | ⟨h2, _⟩)
      · exact Or.inl (by omega)
      · exact Or.inl (by omega)
  refine ⟨h.len, ?_, h.origin, h.stream, h.pos, ?_⟩
  · intro x1 y1 v hx10 hx1 hy10 hy1 hget
    rw [hiff x1 y1 hx10 hx1]
    exact h.cells x1 y1 v hx10 hx1 hy10 hy1 hget
  · intro hall
    exact h.quiet (fun x1 y1 a b c d hpr => hall x1 y1 a b c d ((hiff x1 y1 a b).2 hpr))

theorem UpdInv_init (w : World) (r : Rand) (hn : 0 ≤ w.width * w.height) :
    UpdInv w r 0 0 (List.replicate (w.width * w.height).toNat 0, r) := by
  refine ⟨?_, ?_, ?_, rfl, le_rfl, fun _ => rfl⟩
  · simp only [List.length_replicate]
    omega
  · intro x y v hx0 _ hy0 _ hget
    have hv : v = 0 := by
      rw [List.getElem?_replicate] at hget
      split_ifs at hget
      exact (Option.some.inj hget).symm
    refine ⟨fun hp => ?_, fun _ => hv⟩
    rcases hp with h1 | ⟨_, h2⟩ <;> omega
  · intro n v hget hv
    exfalso
    rw [List.getElem?_replicate] at hget
    split_ifs at hget
    exact hv (Option.some.inj hget).symm

theorem Update_spec (w : World) (r : Rand)
    (hlen : (w.area.length : Int) = w.width * w.height) :
    ∃ w1 r1, w.Update r = .ok (w1, r1) ∧ w1.width = w.width ∧ w1.height = w.height ∧
      UpdInv w r (max 0 w.height) 0 (w1.area, r1) := by
  have hn : 0 ≤ w.width * w.height := by rw [← hlen]; exact Int.natCast_nonneg _
  have hm : ¬ w.width * w.height < 0 := not_lt.mpr hn
  obtain ⟨st, hrun, hinv⟩ := forLoop_inv (fun y st => UpdInv w r y 0 st)
    (fun y st => forLoop 0 w.width (fun x st1 => updateCell w y x st1) st) 0 w.height
    (List.replicate (w.width * w.height).toNat 0, r) (UpdInv_init w r hn)
    (fun y st hy0 hy hI => by
      obtain ⟨t1, ht, hI1⟩ := forLoop_inv (fun x st1 => UpdInv w r y x st1)
        (fun x st1 => updateCell w y x st1) 0 w.width st hI
        (fun x st1 hx0 hx hIx => UpdInv_step hlen hx0 hx hy0 hy st1 hIx)
      exact ⟨t1, ht, UpdInv_row hI1⟩)
  obtain ⟨next, r1⟩ := st
  refine ⟨{ w with area := next }, r1, ?_, rfl, rfl, hinv⟩
  simp only [World.Update, makeSlice, hm, if_false, hrun]

theorem mooreCount_le_countP {a : List Int} {W H x y : Int} (q : Int × Int → Bool)
    (h : ∀ p ∈ mooreOffsets, liveNeighbour a W H x y p = true → q p = true) :
    mooreCount a W H x y ≤ ((mooreOffsets.countP q : Nat) : Int) := by
  unfold mooreCount
  rw [← List.countP_eq_length_filter]
  exact_mod_cast List.countP_mono_left h

theorem liveNeighbour_inside {a : List Int} {W H x y : Int} {p : Int × Int}
    (h : liveNeighbour a W H x y p = true) :
    0 ≤ x + p.1 ∧ x + p.1 < W ∧ 0 ≤ y + p.2 ∧ y + p.2 < H := by
  simp only [liveNeighbour, Bool.and_eq_true, decide_eq_true_eq] at h
  exact h.1

theorem mooreCount_bounds (a : List Int) (W H x y : Int) :
    0 ≤ mooreCount a W H x y ∧ mooreCount a W H x y ≤ 8 := by
  constructor
  · exact Int.natCast_nonneg _
  · have h := mooreCount_le_countP (a := a) (W := W) (H := H) (x := x) (y := y)
      (fun _ => true) (fun _ _ _ => rfl)
    have h8 : mooreOffsets.countP (fun _ => true) = 8 := by decide
    rw [h8] at h
    exact h

/-- What `Update` leaves at every cell inside the grid, in terms of the reads the Go code
performs on the pre-step area. -/
theorem Update_cells (w : World) (r : Rand)
    (hlen : (w.area.length : Int) = w.width * w.height) :
    ∃ w1 r1, w.Update r = .ok (w1, r1) ∧ w1.width = w.width ∧ w1.height = w.height ∧
      (w1.area.length : Int) = w.width * w.height ∧
      ∀ x y, 0 ≤ x → x < w.width → 0 ≤ y → y < w.height →
        ∃ pop cur v, neighbourCount w.area w.width w.height x y = .ok pop ∧
          sliceGet w.area (y * w.width + x) = .ok cur ∧
          sliceGet w1.area (y * w.width + x) = .ok v ∧
          ((pop = 3 ∨ (cur > 0 ∧ pop = 2)) → 1 ≤ v ∧ v ≤ 3) ∧
          (¬ (pop = 3 ∨ (cur > 0 ∧ pop = 2)) → v = 0) := by
  obtain ⟨w1, r1, hrun, hw, hh, hinv⟩ := Update_spec w r hlen
  refine ⟨w1, r1, hrun, hw, hh, hinv.len, ?_⟩
  intro x y hx0 hx hy0 hy
  have hidx := idx_bounds hx0 hx hy0 hy
  have h1 : y * w.width + x < (w.area.length : Int) := by rw [hlen]; exact hidx.2
  have h2 : y * w.width + x < (w1.area.length : Int) := by
    rw [show (w1.area.length : Int) = w.width * w.height from hinv.len]; exact hidx.2
  have hlt : (y * w.width + x).toNat < w1.area.length := by omega
  refine ⟨mooreCount w.area w.width w.height x y, w.area.getD (y * w.width + x).toNat 0,
    w1.area.getD (y * w.width + x).toNat 0, neighbourCount_eq_mooreCount hlen x y,
    sliceGet_of_lt hidx.1 h1, sliceGet_of_lt hidx.1 h2, ?_⟩
  have hget : w1.area[(y * w.width + x).toNat]? =
      some (w1.area.getD (y * w.width + x).toNat 0) := by
    rw [List.getElem?_eq_getElem hlt, List.getD_eq_getElem _ _ hlt]
  have hspec : CellSpec w x y (w1.area.getD (y * w.width + x).toNat 0) :=
    (hinv.cells x y _ hx0 hx hy0 hy hget).1 (Or.inl (by
      have : w.height ≤ max 0 w.height := le_max_right _ _
      omega))
  have hrule : cellAlive w x y = true ↔
      (mooreCount w.area w.width w.height x y = 3 ∨
        (w.area.getD (y * w.width + x).toNat 0 > 0 ∧
          mooreCount w.area w.width w.height x y = 2)) := by
    simp [cellAlive, lifeRule]
  constructor
  · intro h
    exact hspec.1 (hrule.2 h)
  · intro h
    apply hspec.2
    cases hc : cellAlive w x y
    · rfl
    · exact absurd (hrule.1 hc) h

theorem Update_values (w : World) (r : Rand)
    (hlen : (w.area.length : Int) = w.width * w.height) :
    ∃ w1 r1, w.Update r = .ok (w1, r1) ∧ WorldOK w.width w.height w1 := by
  obtain ⟨w1, r1, hrun, hw, hh, hinv⟩ := Update_spec w r hlen
  refine ⟨w1, r1, hrun, hw, hh, hinv.len, ?_⟩
  intro v hv
  obtain ⟨n, hn, hget⟩ := List.getElem_of_mem hv
  have hget2 : w1.area[n]? = some v := by rw [List.getElem?_eq_getElem hn, hget]
  by_cases hz : v = 0
  · subst hz
    simp [nImg]
  · obtain ⟨x, y, hx0, hx, hy0, hy, hidx⟩ := hinv.origin n v hget2 hz
    have hn2 : (y * w.width + x).toNat = n := by omega
    have hspec : CellSpec w x y v :=
      (hinv.cells x y v hx0 hx hy0 hy (by rw [hn2]; exact hget2)).1 (Or.inl (by
        have : w.height ≤ max 0 w.height := le_max_right _ _
        omega))
    cases hc : cellAlive w x y
    · exact absurd (hspec.2 hc) hz
    · have := hspec.1 hc
      simp only [nImg]
      omega

theorem wrapInt_of_range {n : Int} (h0 : -2 ^ 63 ≤ n) (h1 : n < 2 ^ 63) : wrapInt n = n := by
  have e63 : (2 : Int) ^ 63 = 9223372036854775808 := by norm_num
  have e64 : (2 : Int) ^ 64 = 18446744073709551616 := by norm_num
  unfold wrapInt
  rw [e63] at h0 h1 ⊢
  rw [e64]
  omega

theorem initIndex_of_range {W H x y : Int} (hx0 : 0 ≤ x) (hx : x < W) (hy0 : 0 ≤ y)
    (hy : y < H) (hr : W * H < 2 ^ 63) : wrapInt (wrapInt (y * W) + x) = y * W + x := by
  have hidx := idx_bounds hx0 hx hy0 hy
  have hyW : 0 ≤ y * W := mul_nonneg hy0 (by omega)
  have e63 : (2 : Int) ^ 63 = 9223372036854775808 := by norm_num
  have h1 : wrapInt (y * W) = y * W :=
    wrapInt_of_range (by rw [e63]; omega) (by rw [e63] at hr ⊢; omega)
  rw [h1]
  exact wrapInt_of_range (by rw [e63]; omega) (by rw [e63] at hr ⊢; omega)

theorem Intn_spec (r : Rand) {n : Int} (hn : 0 < n) :
    ∃ k, r.Intn n = .ok (k, { r with pos := r.pos + 1 }) ∧ 0 ≤ k ∧ k < n := by
  refine ⟨((r.stream r.pos % n.toNat : Nat) : Int), ?_, Int.natCast_nonneg _, ?_⟩
  · simp [Rand.Intn, not_le.mpr hn]
  · have h1 : 0 < n.toNat := by omega
    have h2 := Nat.mod_lt (r.stream r.pos) h1
    omega

theorem initStep_ok {W H : Int} (hW : 0 < W) (hH : 0 < H) (hr : W * H < 2 ^ 63)
    (st : World × Rand)
    (h : WorldOK W H st.1) : ∃ st1, initStep st = .ok st1 ∧ WorldOK W H st1.1 := by
  obtain ⟨w, r⟩ := st
  obtain ⟨hw, hh, hlen, hvals⟩ := h
  simp only at hw hh hlen hvals
  obtain ⟨x, hx, hx0, hxW⟩ := Intn_spec r (n := w.width) (by omega)
  obtain ⟨y, hy, hy0, hyH⟩ := Intn_spec { r with pos := r.pos + 1 } (n := w.height) (by omega)
  obtain ⟨k, hk, hk0, hk3⟩ :=
    Intn_spec { r with pos := r.pos + 1 + 1 } (n := nImg) (by decide)
  have hidx := idx_bounds hx0 hxW hy0 hyH
  have hlt : y * w.width + x < (w.area.length : Int) := by
    rw [hlen, ← hw, ← hh]; exact hidx.2
  refine ⟨({ w with area := w.area.set (y * w.width + x).toNat (k + 1) },
    ({ stream := r.stream, pos := r.pos + 1 + 1 + 1 } : Rand)), ?_, ?_⟩
  · have hwrap : wrapInt (wrapInt (y * w.width) + x) = y * w.width + x :=
      initIndex_of_range hx0 hxW hy0 hyH (by rw [hw, hh]; exact hr)
    simp only [initStep, hx, hy, hk, hwrap, sliceSet_of_lt hidx.1 hlt]
  · refine ⟨hw, hh, ?_, ?_⟩
    · simpa using hlen
    · intro v hv
      rcases List.mem_or_eq_of_mem_set hv with h1 | h1
      · exact hvals v h1
      · simp only [nImg] at hk3 ⊢
        omega

theorem NewWorld_ok {W H : Int} (hW : 0 < W) (hH : 0 < H) (hr : W * H < 2 ^ 63)
    (n : Int) (r : Rand) :
    ∃ w r1, NewWorld W H n r = .ok (w, r1) ∧ WorldOK W H w := by
  have hp : 0 ≤ W * H := (mul_pos hW hH).le
  have hwrap : wrapInt (W * H) = W * H :=
    wrapInt_of_range (le_trans (by norm_num) hp) hr
  have hinit : WorldOK W H
      { area := List.replicate (W * H).toNat 0, width := W, height := H } := by
    refine ⟨rfl, rfl, ?_, ?_⟩
    · simp only [List.length_replicate]
      omega
    · intro v hv
      rw [List.eq_of_mem_replicate hv]
      simp [nImg]
  obtain ⟨st, hrun, hI⟩ := forLoop_inv (fun _ (st : World × Rand) => WorldOK W H st.1)
    (fun _ st => initStep st) 0 n
    ({ area := List.replicate (W * H).toNat 0, width := W, height := H }, r) hinit
    (fun _ st _ _ hI => initStep_ok hW hH hr st hI)
  refine ⟨st.1, st.2, ?_, hI⟩
  simp only [NewWorld, hwrap, makeSlice, not_lt.mpr hp, if_false, World.init, hrun]

theorem updateN_ok {W H : Int} : ∀ (k : Nat) (w : World) (r : Rand), WorldOK W H w →
    ∃ wk rk, updateN k w r = .ok (wk, rk) ∧ WorldOK W H wk := by
  intro k
  induction k with
  | zero =>
    intro w r h
    exact ⟨w, r, rfl, h⟩
  | succ k ih =>
    intro w r h
    obtain ⟨hw, hh, hlen, _⟩ := h
    obtain ⟨w1, r1, hrun, hok⟩ := Update_values w r (by rw [hlen, hw, hh])
    rw [hw, hh] at hok
    obtain ⟨wk, rk, hk, hokk⟩ := ih w1 r1 hok
    refine ⟨wk, rk, ?_, hokk⟩
    simp only [updateN, hrun]
    exact hk

theorem Update_all_dead (w : World) (r : Rand)
    (hlen : (w.area.length : Int) = w.width * w.height)
    (hdead : ∀ x y, 0 ≤ x → x < w.width → 0 ≤ y → y < w.height → cellAlive w x y = false) :
    ∃ w1, w.Update r = .ok (w1, r) ∧ (w1.area.length : Int) = w.width * w.height ∧
      ∀ v ∈ w1.area, v = 0 := by
  obtain ⟨w1, r1, hrun, _, _, hinv⟩ := Update_spec w r hlen
  have hr : r1 = r := hinv.quiet (fun x y a b c d _ => hdead x y a b c d)
  subst hr
  refine ⟨w1, hrun, hinv.len, ?_⟩
  intro v hv
  obtain ⟨n, hn, hget⟩ := List.getElem_of_mem hv
  have hget2 : w1.area[n]? = some v := by rw [List.getElem?_eq_getElem hn, hget]
  by_contra hz
  obtain ⟨x, y, hx0, hx, hy0, hy, hidx⟩ := hinv.origin n v hget2 hz
  have hn2 : (y * w.width + x).toNat = n := by omega
  have hspec : CellSpec w x y v :=
    (hinv.cells x y v hx0 hx hy0 hy (by rw [hn2]; exact hget2)).1 (Or.inl (by
      have : w.height ≤ max 0 w.height := le_max_right _ _
      omega))
  exact hz (hspec.2 (hdead x y hx0 hx hy0 hy))

theorem liveNeighbour_index {a : List Int} {W H x y : Int} {p : Int × Int}
    (h : liveNeighbour a W H x y p = true) :
    ∃ v, a[((y + p.2) * W + (x + p.1)).toNat]? = some v ∧ 0 < v := by
  simp only [liveNeighbour, Bool.and_eq_true, decide_eq_true_eq] at h
  cases hg : a[((y + p.2) * W + (x + p.1)).toNat]? with
  | none => rw [hg] at h; exact Bool.noConfusion h.2
  | some v =>
    rw [hg] at h
    exact ⟨v, rfl, by simpa using h.2⟩

theorem mooreOffsets_nodup : mooreOffsets.Nodup := by decide

theorem mooreCount_le_one_of_single {a : List Int} {W H : Int} {n0 : Nat}
    (hsingle : ∀ (n : Nat) (v : Int), a[n]? = some v → 0 < v → n = n0) (x y : Int) :
    mooreCount a W H x y ≤ 1 := by
  by_cases hex : ∃ p ∈ mooreOffsets, liveNeighbour a W H x y p = true
  · obtain ⟨p0, _, hp0⟩ := hex
    have h := mooreCount_le_countP (a := a) (W := W) (H := H) (x := x) (y := y)
      (fun p => decide (p = p0)) (fun p _ hp => by
        obtain ⟨v, hv, hpos⟩ := liveNeighbour_index hp
        obtain ⟨v0, hv0, hpos0⟩ := liveNeighbour_index hp0
        have e1 := hsingle _ v hv hpos
        have e2 := hsingle _ v0 hv0 hpos0
        have hin := liveNeighbour_inside hp
        have hin0 := liveNeighbour_inside hp0
        have hb := idx_bounds hin.1 hin.2.1 hin.2.2.1 hin.2.2.2
        have hb0 := idx_bounds hin0.1 hin0.2.1 hin0.2.2.1 hin0.2.2.2
        have he : (y + p.2) * W + (x + p.1) = (y + p0.2) * W + (x + p0.1) := by omega
        have := idx_inj hin.1 hin.2.1 hin0.1 hin0.2.1 he
        have hpp : p = p0 := by
          ext
          · show p.1 = p0.1
            omega
          · show p.2 = p0.2
            omega
        simp [hpp])
    have hc : mooreOffsets.countP (fun p => decide (p = p0)) ≤ 1 :=
      List.nodup_iff_count_le_one.1 mooreOffsets_nodup p0
    omega
  · have h := mooreCount_le_countP (a := a) (W := W) (H := H) (x := x) (y := y)
      (fun _ => false) (fun p hp hl => absurd ⟨p, hp, hl⟩ hex)
    have hc : mooreOffsets.countP (fun _ => false) = 0 := by decide
    rw [hc] at h
    omega

theorem forRange_congr {σ : Type} (b1 b2 : Int → σ → Except GoPanic σ) :
    ∀ (n : Nat) (lo : Int) (s : σ),
      (∀ i t, lo ≤ i → i < lo + n → b1 i t = b2 i t) →
      forRange lo n b1 s = forRange lo n b2 s := by
  intro n
  induction n with
  | zero => intro lo s _; rfl
  | succ k ih =>
    intro lo s h
    simp only [forRange]
    rw [h lo s le_rfl (by push_cast; omega)]
    cases b2 lo s with
    | error e => rfl
    | ok s1 =>
      exact ih (lo + 1) s1 (fun i t h1 h2 => h i t (by omega) (by push_cast; omega))

theorem forLoop_congr {σ : Type} (b1 b2 : Int → σ → Except GoPanic σ) (lo hi : Int) (s : σ)
    (h : ∀ i t, lo ≤ i → i < hi → b1 i t = b2 i t) :
    forLoop lo hi b1 s = forLoop lo hi b2 s :=
  forRange_congr b1 b2 (hi - lo).toNat lo s (fun i t h1 h2 => h i t h1 (by omega))

theorem mooreCount_congr {a1 a2 : List Int} (hl : a1.length = a2.length)
    (hpat : ∀ (i : Nat) (v1 v2 : Int), a1[i]? = some v1 → a2[i]? = some v2 →
      (0 < v1 ↔ 0 < v2)) (W H x y : Int) :
    mooreCount a1 W H x y = mooreCount a2 W H x y := by
  have hfilter : mooreOffsets.filter (liveNeighbour a1 W H x y) =
      mooreOffsets.filter (liveNeighbour a2 W H x y) := by
    apply List.filter_congr
    intro p _
    unfold liveNeighbour
    congr 1
    cases h1 : a1[((y + p.2) * W + (x + p.1)).toNat]? with
    | none =>
      have : a2[((y + p.2) * W + (x + p.1)).toNat]? = none := by
        rw [List.getElem?_eq_none_iff] at h1 ⊢
        omega
      rw [this]
    | some v1 =>
      cases h2 : a2[((y + p.2) * W + (x + p.1)).toNat]? with
      | none =>
        exfalso
        rw [List.getElem?_eq_none_iff] at h2
        have := (List.getElem?_eq_some_iff.1 h1).1
        omega
      | some v2 =>
        have := hpat _ v1 v2 h1 h2
        simp only [gt_iff_lt, decide_eq_decide]
        exact this
  unfold mooreCount
  rw [hfilter]

theorem updateCell_congr {a1 a2 : List Int} {W H : Int}
    (hlen1 : (a1.length : Int) = W * H) (hlen2 : (a2.length : Int) = W * H)
    (hpat : ∀ (i : Nat) (v1 v2 : Int), a1[i]? = some v1 → a2[i]? = some v2 →
      (0 < v1 ↔ 0 < v2))
    {x y : Int} (hx0 : 0 ≤ x) (hx : x < W) (hy0 : 0 ≤ y) (hy : y < H)
    (st : List Int × Rand) :
    updateCell { area := a1, width := W, height := H } y x st =
      updateCell { area := a2, width := W, height := H } y x st := by
  have hidx := idx_bounds hx0 hx hy0 hy
  have h1 : y * W + x < (a1.length : Int) := by rw [hlen1]; exact hidx.2
  have h2 : y * W + x < (a2.length : Int) := by rw [hlen2]; exact hidx.2
  have hl : a1.length = a2.length := by omega
  have hn1 : (y * W + x).toNat < a1.length := by omega
  have hn2 : (y * W + x).toNat < a2.length := by omega
  have hd : decide (a1.getD (y * W + x).toNat 0 > 0) =
      decide (a2.getD (y * W + x).toNat 0 > 0) := by
    simp only [gt_iff_lt, decide_eq_decide]
    apply hpat (y * W + x).toNat
    · rw [List.getElem?_eq_getElem hn1, List.getD_eq_getElem _ _ hn1]
    · rw [List.getElem?_eq_getElem hn2, List.getD_eq_getElem _ _ hn2]
  simp only [updateCell, neighbourCount_eq_mooreCount hlen1, neighbourCount_eq_mooreCount hlen2,
    mooreCount_congr hl hpat, sliceGet_of_lt hidx.1 h1, sliceGet_of_lt hidx.1 h2, hd]

theorem Update_congr {a1 a2 : List Int} {W H : Int}
    (hlen1 : (a1.length : Int) = W * H) (hlen2 : (a2.length : Int) = W * H)
    (hpat : ∀ (i : Nat) (v1 v2 : Int), a1[i]? = some v1 → a2[i]? = some v2 →
      (0 < v1 ↔ 0 < v2)) (r : Rand) :
    World.Update { area := a1, width := W, height := H } r =
      World.Update { area := a2, width := W, height := H } r := by
  have hloop : ∀ s, forLoop 0 H (fun y st => forLoop 0 W
        (fun x st1 => updateCell { area := a1, width := W, height := H } y x st1) st) s =
      forLoop 0 H (fun y st => forLoop 0 W
        (fun x st1 => updateCell { area := a2, width := W, height := H } y x st1) st) s :=
    fun s => forLoop_congr _ _ 0 H s (fun y st hy0 hy =>
      forLoop_congr _ _ 0 W st (fun x st1 hx0 hx =>
        updateCell_congr hlen1 hlen2 hpat hx0 hx hy0 hy st1))
  simp only [World.Update, hloop]

theorem countP_set_le (p : Int → Bool) (v : Int) :
    ∀ (l : List Int) (i : Nat), (l.set i v).countP p ≤ l.countP p + 1 := by
  intro l
  induction l with
  | nil => intro i; simp
  | cons a l ih =>
    intro i
    cases i with
    | zero =>
      simp only [List.set_cons_zero, List.countP_cons]
      split_ifs <;> omega
    | succ j =>
      simp only [List.set_cons_succ, List.countP_cons]
      have := ih j
      omega

theorem initStep_live {W H : Int} (hW : 0 < W) (hH : 0 < H) (hr : W * H < 2 ^ 63)
    (st : World × Rand) (h : WorldOK W H st.1) :
    ∃ st1, initStep st = .ok st1 ∧ WorldOK W H st1.1 ∧
      liveCells st1.1.area ≤ liveCells st.1.area + 1 := by
  obtain ⟨w, r⟩ := st
  obtain ⟨hw, hh, hlen, hvals⟩ := h
  simp only at hw hh hlen hvals
  obtain ⟨x, hx, hx0, hxW⟩ := Intn_spec r (n := w.width) (by omega)
  obtain ⟨y, hy, hy0, hyH⟩ := Intn_spec { r with pos := r.pos + 1 } (n := w.height) (by omega)
  obtain ⟨k, hk, hk0, hk3⟩ :=
    Intn_spec { r with pos := r.pos + 1 + 1 } (n := nImg) (by decide)
  have hidx := idx_bounds hx0 hxW hy0 hyH
  have hlt : y * w.width + x < (w.area.length : Int) := by
    rw [hlen, ← hw, ← hh]; exact hidx.2
  refine ⟨({ w with area := w.area.set (y * w.width + x).toNat (k + 1) },
    ({ stream := r.stream, pos := r.pos + 1 + 1 + 1 } : Rand)), ?_, ?_, ?_⟩
  · have hwrap : wrapInt (wrapInt (y * w.width) + x) = y * w.width + x :=
      initIndex_of_range hx0 hxW hy0 hyH (by rw [hw, hh]; exact hr)
    simp only [initStep, hx, hy, hk, hwrap, sliceSet_of_lt hidx.1 hlt]
  · refine ⟨hw, hh, ?_, ?_⟩
    · simpa using hlen
    · intro v hv
      rcases List.mem_or_eq_of_mem_set hv with h1 | h1
      · exact hvals v h1
      · simp only [nImg] at hk3 ⊢
        omega
  · exact countP_set_le _ _ _ _

theorem NewWorld_live {W H : Int} (hW : 0 < W) (hH : 0 < H) (hr : W * H < 2 ^ 63)
    (n : Int) (r : Rand) :
    ∃ w r1, NewWorld W H n r = .ok (w, r1) ∧ WorldOK W H w ∧
      (liveCells w.area : Int) ≤ max 0 n := by
  have hp : 0 ≤ W * H := (mul_pos hW hH).le
  have hwrap : wrapInt (W * H) = W * H :=
    wrapInt_of_range (le_trans (by norm_num) hp) hr
  have hinit : WorldOK W H
      { area := List.replicate (W * H).toNat 0, width := W, height := H } := by
    refine ⟨rfl, rfl, ?_, ?_⟩
    · simp only [List.length_replicate]
      omega
    · intro v hv
      rw [List.eq_of_mem_replicate hv]
      simp [nImg]
  have hzero : liveCells (List.replicate (W * H).toNat (0 : Int)) = 0 := by
    unfold liveCells
    rw [List.countP_eq_zero]
    intro v hv
    rw [List.eq_of_mem_replicate hv]
    decide
  obtain ⟨st, hrun, hI⟩ := forLoop_inv
    (fun i (st : World × Rand) => WorldOK W H st.1 ∧ (liveCells st.1.area : Int) ≤ i)
    (fun _ st => initStep st) 0 n
    ({ area := List.replicate (W * H).toNat 0, width := W, height := H }, r)
    ⟨hinit, by simp only [hzero]; rfl⟩
    (fun i st _ _ hI => by
      obtain ⟨st1, h1, h2, h3⟩ := initStep_live hW hH hr st hI.1
      refine ⟨st1, h1, h2, ?_⟩
      have := hI.2
      omega)
  refine ⟨st.1, st.2, ?_, hI.1, hI.2⟩
  simp only [NewWorld, hwrap, makeSlice, not_lt.mpr hp, if_false, World.init, hrun]

theorem NewWorld_of_make_ok {W H : Int} (hp : 0 ≤ wrapInt (W * H)) (n : Int) (r : Rand) :
    NewWorld W H n r =
      forRange 0 n.toNat (fun _ st => initStep st)
        ({ area := List.replicate (wrapInt (W * H)).toNat 0, width := W, height := H }, r) := by
  simp only [NewWorld, makeSlice, not_lt.mpr hp, if_false, World.init, forLoop, sub_zero]

theorem initStep_nonpositive {W H : Int} (h : W ≤ 0 ∨ H ≤ 0) (a : List Int) (r : Rand) :
    initStep ({ area := a, width := W, height := H }, r) = .error .intnNonPositive := by
  by_cases hW : W ≤ 0
  · simp [initStep, Rand.Intn, hW]
  · have hH : H ≤ 0 := by omega
    simp [initStep, Rand.Intn, hW, hH]

theorem updateCellOrdered_source (w : World) (y x : Int) (st : List Int × Rand) :
    updateCellOrdered sourceOrder w y x st = updateCell w y x st := by
  unfold updateCellOrdered updateCell
  cases neighbourCount w.area w.width w.height x y with
  | error e => rfl
  | ok pop =>
    simp only [sourceOrder, runSwitch, caseGuard, caseBody]
    by_cases h1 : pop < 2
    · simp [h1]
    · by_cases h23 : pop = 2 ∨ pop = 3
      · cases hg : sliceGet w.area (y * w.width + x) with
        | error e => simp [h1, h23]
        | ok cur =>
          by_cases hc : cur > 0
          · simp [h1, h23, hc]
          · by_cases h3 : pop > 3
            · exfalso; omega
            · by_cases h4 : pop = 3 <;> simp [h1, h23, hc, h3, h4]
      · by_cases h3 : pop > 3
        · simp [h1, h23, h3]
        · by_cases h4 : pop = 3 <;> simp [h1, h23, h3, h4]

theorem caseGuard_rule2_true {w : World} {y x pop : Int}
    (h : caseGuard w y x pop .rule2 = .ok true) :
    (pop = 2 ∨ pop = 3) ∧ ∃ cur, sliceGet w.area (y * w.width + x) = .ok cur ∧ cur > 0 := by
  unfold caseGuard at h
  by_cases h23 : pop = 2 ∨ pop = 3
  · refine ⟨h23, ?_⟩
    rw [if_pos h23] at h
    cases hg : sliceGet w.area (y * w.width + x) with
    | error e => rw [hg] at h; exact Except.noConfusion h
    | ok cur =>
      rw [hg] at h
      refine ⟨cur, rfl, ?_⟩
      have := Except.ok.inj h
      simpa using this
  · rw [if_neg h23] at h
    exact Bool.noConfusion (Except.ok.inj h)

theorem caseGuard_overlap {w : World} {y x pop : Int} {k1 k2 : Rule}
    (h1 : caseGuard w y x pop k1 = .ok true) (h2 : caseGuard w y x pop k2 = .ok true)
    (hne : k1 ≠ k2) :
    pop = 3 ∧ (∃ cur, sliceGet w.area (y * w.width + x) = .ok cur ∧ cur > 0) ∧
      ((k1 = .rule2 ∧ k2 = .rule4) ∨ (k1 = .rule4 ∧ k2 = .rule2)) := by
  cases k1 <;> cases k2 <;> first
    | exact absurd rfl hne
    | (have h3 : pop = 3 := by simp only [caseGuard] at h2; simpa using Except.ok.inj h2
       exact ⟨h3, (caseGuard_rule2_true h1).2, Or.inl ⟨rfl, rfl⟩⟩)
    | (have h3 : pop = 3 := by simp only [caseGuard] at h1; simpa using Except.ok.inj h1
       exact ⟨h3, (caseGuard_rule2_true h2).2, Or.inr ⟨rfl, rfl⟩⟩)
    | (exfalso
       have hp := (caseGuard_rule2_true h1).1
       simp only [caseGuard] at h2
       have hq := Except.ok.inj h2
       simp only [decide_eq_true_eq] at hq
       omega)
    | (exfalso
       have hp := (caseGuard_rule2_true h2).1
       simp only [caseGuard] at h1
       have hq := Except.ok.inj h1
       simp only [decide_eq_true_eq] at hq
       omega)
    | (exfalso
       simp only [caseGuard] at h1 h2
       have a1 := Except.ok.inj h1
       have a2 := Except.ok.inj h2
       simp only [decide_eq_true_eq] at a1 a2
       omega)

theorem caseBody_overlap {w : World} {y x pop : Int} (st : List Int × Rand) {k1 k2 : Rule}
    (h1 : caseGuard w y x pop k1 = .ok true) (h2 : caseGuard w y x pop k2 = .ok true) :
    caseBody w y x st k1 = caseBody w y x st k2 := by
  by_cases hne : k1 = k2
  · rw [hne]
  · rcases (caseGuard_overlap h1 h2 hne).2.2 with ⟨rfl, rfl⟩ | ⟨rfl, rfl⟩ <;> rfl

theorem caseGuard_ok {w : World} {y x : Int} {cur : Int}
    (hget : sliceGet w.area (y * w.width + x) = .ok cur) (pop : Int) (k : Rule) :
    ∃ b, caseGuard w y x pop k = .ok b := by
  cases k
  · exact ⟨_, rfl⟩
  · by_cases h23 : pop = 2 ∨ pop = 3
    · exact ⟨decide (cur > 0), by simp only [caseGuard, if_pos h23, hget]⟩
    · exact ⟨false, by simp only [caseGuard, if_neg h23]⟩
  · exact ⟨_, rfl⟩
  · exact ⟨_, rfl⟩

theorem runSwitch_none {w : World} {y x pop : Int} (st : List Int × Rand) :
    ∀ l : List Rule, (∀ k ∈ l, caseGuard w y x pop k = .ok false) →
      runSwitch w y x pop st l = .ok st := by
  intro l
  induction l with
  | nil => intro _; rfl
  | cons k ks ih =>
    intro h
    simp only [runSwitch, h k (List.mem_cons_self _ _)]
    exact ih (fun k1 hk1 => h k1 (List.mem_cons_of_mem _ hk1))

theorem runSwitch_some {w : World} {y x pop : Int} (st : List Int × Rand)
    (hok : ∀ k, ∃ b, caseGuard w y x pop k = .ok b) {k0 : Rule}
    (h0 : caseGuard w y x pop k0 = .ok true) :
    ∀ l : List Rule, k0 ∈ l → runSwitch w y x pop st l = caseBody w y x st k0 := by
  intro l
  induction l with
  | nil => intro h; exact absurd h (List.not_mem_nil _)
  | cons k ks ih =>
    intro hmem
    obtain ⟨b, hb⟩ := hok k
    cases b with
    | true =>
      simp only [runSwitch, hb]
      exact caseBody_overlap st hb h0
    | false =>
      simp only [runSwitch, hb]
      rcases List.mem_cons.1 hmem with he | hin
      · rw [he, hb] at h0
        exact Bool.noConfusion (Except.ok.inj h0)
      · exact ih hin

theorem runSwitch_perm {w : World} {y x pop : Int} (st : List Int × Rand)
    (hok : ∀ k, ∃ b, caseGuard w y x pop k = .ok b) {l1 l2 : List Rule} (hp : l1.Perm l2) :
    runSwitch w y x pop st l1 = runSwitch w y x pop st l2 := by
  by_cases hex : ∃ k0 ∈ l1, caseGuard w y x pop k0 = .ok true
  · obtain ⟨k0, hk0, hg⟩ := hex
    rw [runSwitch_some st hok hg l1 hk0, runSwitch_some st hok hg l2 (hp.mem_iff.1 hk0)]
  · have hall : ∀ k ∈ l1, caseGuard w y x pop k = .ok false := by
      intro k hk
      obtain ⟨b, hb⟩ := hok k
      cases b with
      | true => exact absurd ⟨k, hk, hb⟩ hex
      | false => exact hb
    rw [runSwitch_none st l1 hall,
      runSwitch_none st l2 (fun k hk => hall k (hp.mem_iff.2 hk))]

theorem updateCellOrdered_perm {w : World} (hlen : (w.area.length : Int) = w.width * w.height)
    {order : List Rule} (hp : order.Perm sourceOrder)
    {x y : Int} (hx0 : 0 ≤ x) (hx : x < w.width) (hy0 : 0 ≤ y) (hy : y < w.height)
    (st : List Int × Rand) :
    updateCellOrdered order w y x st = updateCell w y x st := by
  rw [← updateCellOrdered_source]
  have hidx := idx_bounds hx0 hx hy0 hy
  have hget := sliceGet_of_lt hidx.1 (show y * w.width + x < (w.area.length : Int) by
    rw [hlen]; exact hidx.2)
  simp only [updateCellOrdered, neighbourCount_eq_mooreCount hlen]
  exact runSwitch_perm st (caseGuard_ok hget _) hp

theorem UpdateOrdered_perm {w : World} (hlen : (w.area.length : Int) = w.width * w.height)
    {order : List Rule} (hp : order.Perm sourceOrder) (r : Rand) :
    w.UpdateOrdered order r = w.Update r := by
  have hloop : ∀ s, forLoop 0 w.height (fun y st => forLoop 0 w.width
        (fun x st1 => updateCellOrdered order w y x st1) st) s =
      forLoop 0 w.height (fun y st => forLoop 0 w.width
        (fun x st1 => updateCell w y x st1) st) s :=
    fun s => forLoop_congr _ _ 0 w.height s (fun y st hy0 hy =>
      forLoop_congr _ _ 0 w.width st (fun x st1 hx0 hx =>
        updateCellOrdered_perm hlen hp hx0 hx hy0 hy st1))
  simp only [World.UpdateOrdered, World.Update, hloop]

theorem mooreCount_dead {a : List Int} (hdead : ∀ v ∈ a, v ≤ 0) (W H x y : Int) :
    mooreCount a W H x y = 0 := by
  have h := mooreCount_le_countP (a := a) (W := W) (H := H) (x := x) (y := y)
    (fun _ => false) (fun p _ hl => by
      obtain ⟨v, hv, hpos⟩ := liveNeighbour_index hl
      have := hdead v (List.getElem?_mem hv)
      omega)
  have hc : mooreOffsets.countP (fun _ => false) = 0 := by decide
  rw [hc] at h
  have := (mooreCount_bounds a W H x y).1
  omega

theorem Update_dead_step (w : World) (r : Rand)
    (hlen : (w.area.length : Int) = w.width * w.height) (hdead : ∀ v ∈ w.area, v ≤ 0) :
    ∃ w1, w.Update r = .ok (w1, r) ∧ w1.width = w.width ∧ w1.height = w.height ∧
      (w1.area.length : Int) = w.width * w.height ∧ ∀ v ∈ w1.area, v = 0 := by
  obtain ⟨w1, hrun, hl, hall⟩ := Update_all_dead w r hlen (fun x y _ _ _ _ => by
    simp [cellAlive, lifeRule, mooreCount_dead hdead])
  obtain ⟨w2, r2, hrun2, hw, hh, _⟩ := Update_spec w r hlen
  rw [hrun] at hrun2
  have he : w1 = w2 := congrArg Prod.fst (Except.ok.inj hrun2)
  subst he
  exact ⟨w1, hrun, hw, hh, hl, hall⟩

theorem updateN_dead : ∀ (k : Nat) (w : World) (r : Rand),
    (w.area.length : Int) = w.width * w.height → (∀ v ∈ w.area, v ≤ 0) →
    ∃ wk, updateN k w r = .ok (wk, r) ∧ wk.width = w.width ∧ wk.height = w.height ∧
      (wk.area.length : Int) = w.width * w.height ∧ (∀ v ∈ wk.area, v ≤ 0) ∧
      (0 < k → ∀ v ∈ wk.area, v = 0) := by
  intro k
  induction k with
  | zero =>
    intro w r hlen hdead
    exact ⟨w, rfl, rfl, rfl, hlen, hdead, fun h => absurd h (lt_irrefl _)⟩
  | succ k ih =>
    intro w r hlen hdead
    obtain ⟨w1, hrun, hw, hh, hl, hz⟩ := Update_dead_step w r hlen hdead
    have hd1 : ∀ v ∈ w1.area, v ≤ 0 := fun v hv => le_of_eq (hz v hv)
    obtain ⟨wk, hk, hwk, hhk, hlk, hdk, hzk⟩ := ih w1 r (by rw [hl, hw, hh]) hd1
    refine ⟨wk, ?_, hwk.trans hw, hhk.trans hh, by rw [hlk, hw, hh], hdk, fun _ => ?_⟩
    · simp only [updateN, hrun]
      exact hk
    · rcases Nat.eq_zero_or_pos k with h0 | hpos
      · subst h0
        have he : w1 = wk := congrArg Prod.fst (Except.ok.inj hk)
        rw [← he]
        exact hz
      · exact hzk hpos

theorem forRange_ok_inv {σ : Type} (I : Int → σ → Prop) (body : Int → σ → Except GoPanic σ) :
    ∀ (n : Nat) (lo : Int) (s s1 : σ), I lo s →
      (∀ i t t1, lo ≤ i → I i t → body i t = .ok t1 → I (i + 1) t1) →
      forRange lo n body s = .ok s1 → I (lo + n) s1 := by
  intro n
  induction n with
  | zero =>
    intro lo s s1 h0 _ hrun
    have hs : s = s1 := Except.ok.inj hrun
    rw [← hs]
    simpa using h0
  | succ k ih =>
    intro lo s s1 h0 hstep hrun
    simp only [forRange] at hrun
    cases hb : body lo s with
    | error e => rw [hb] at hrun; exact Except.noConfusion hrun
    | ok t =>
      rw [hb] at hrun
      have h1 := ih (lo + 1) t s1 (hstep lo s t le_rfl h0 hb)
        (fun i u u1 hi hI hbu => hstep i u u1 (by omega) hI hbu) hrun
      have e : lo + ((k + 1 : Nat) : Int) = lo + 1 + (k : Int) := by push_cast; ring
      rw [e]
      exact h1

theorem forLoop_ok_inv {σ : Type} (I : Int → σ → Prop) (body : Int → σ → Except GoPanic σ)
    (lo hi : Int) (s s1 : σ) (h0 : I lo s)
    (hstep : ∀ i t t1, lo ≤ i → I i t → body i t = .ok t1 → I (i + 1) t1)
    (hrun : forLoop lo hi body s = .ok s1) : I (max lo hi) s1 := by
  have e : lo + ((hi - lo).toNat : Int) = max lo hi := by
    rcases le_total lo hi with h | h
    · rw [max_eq_right h]; omega
    · rw [max_eq_left h]; omega
  exact e ▸ forRange_ok_inv I body (hi - lo).toNat lo s s1 h0 hstep hrun

theorem sliceSet_of_ok {a a1 : List Int} {i v : Int} (h : sliceSet a i v = .ok a1) :
    a1 = a.set i.toNat v := by
  unfold sliceSet at h
  split_ifs at h
  exact (Except.ok.inj h).symm

theorem Intn_of_ok {r r1 : Rand} {n k : Int} (h : r.Intn n = .ok (k, r1)) :
    0 ≤ k ∧ k < n := by
  unfold Rand.Intn at h
  split_ifs at h with hn
  have hk : ((r.stream r.pos % n.toNat : Nat) : Int) = k :=
    congrArg Prod.fst (Except.ok.inj h)
  have h1 : 0 < n.toNat := by omega
  have h2 := Nat.mod_lt (r.stream r.pos) h1
  omega

theorem initStep_of_ok {st st1 : World × Rand} (h : initStep st = .ok st1) :
    st1.1.width = st.1.width ∧ st1.1.height = st.1.height ∧
      ∃ (i : Nat) (v : Int), 1 ≤ v ∧ v ≤ 3 ∧ st1.1.area = st.1.area.set i v := by
  unfold initStep at h
  cases h1 : st.2.Intn st.1.width with
  | error e => rw [h1] at h; exact Except.noConfusion h
  | ok p1 =>
    obtain ⟨x, r1⟩ := p1
    rw [h1] at h
    simp only at h
    cases h2 : r1.Intn st.1.height with
    | error e => rw [h2] at h; exact Except.noConfusion h
    | ok p2 =>
      obtain ⟨y, r2⟩ := p2
      rw [h2] at h
      simp only at h
      cases h3 : r2.Intn nImg with
      | error e => rw [h3] at h; exact Except.noConfusion h
      | ok p3 =>
        obtain ⟨k, r3⟩ := p3
        rw [h3] at h
        simp only at h
        cases h4 : sliceSet st.1.area (wrapInt (wrapInt (y * st.1.width) + x)) (k + 1) with
        | error e => rw [h4] at h; exact Except.noConfusion h
        | ok area =>
          rw [h4] at h
          have hst : ({ st.1 with area := area }, r3) = st1 := Except.ok.inj h
          have hk := Intn_of_ok h3
          simp only [nImg] at hk
          rw [← hst]
          exact ⟨rfl, rfl, _, k + 1, by omega, by omega, sliceSet_of_ok h4⟩

theorem NewWorld_of_ok {W H n : Int} {r r1 : Rand} {w : World}
    (h : NewWorld W H n r = .ok (w, r1)) :
    w.width = W ∧ w.height = H ∧ (∀ v ∈ w.area, 0 ≤ v ∧ v ≤ nImg) ∧
      (liveCells w.area : Int) ≤ max 0 n := by
  unfold NewWorld makeSlice at h
  split_ifs at h with hneg
  simp only [World.init] at h
  have hzero : liveCells (List.replicate (wrapInt (W * H)).toNat (0 : Int)) = 0 := by
    unfold liveCells
    rw [List.countP_eq_zero]
    intro v hv
    rw [List.eq_of_mem_replicate hv]
    decide
  have hI := forLoop_ok_inv
    (fun i (st : World × Rand) => st.1.width = W ∧ st.1.height = H ∧
      (∀ v ∈ st.1.area, 0 ≤ v ∧ v ≤ nImg) ∧ (liveCells st.1.area : Int) ≤ i)
    (fun _ st => initStep st) 0 n _ (w, r1)
    ⟨rfl, rfl, fun v hv => by rw [List.eq_of_mem_replicate hv]; simp [nImg],
      by simp only [hzero]; rfl⟩
    (fun i t t1 _ hIt hb => by
      obtain ⟨hw, hh, j, v, hv1, hv3, harea⟩ := initStep_of_ok hb
      refine ⟨hw.trans hIt.1, hh.trans hIt.2.1, ?_, ?_⟩
      · intro u hu
        rw [harea] at hu
        rcases List.mem_or_eq_of_mem_set hu with h1 | h1
        · exact hIt.2.2.1 u h1
        · simp only [nImg]
          omega
      · have hle : liveCells t1.1.area ≤ liveCells t.1.area + 1 := by
          rw [harea]
          exact countP_set_le _ _ _ _
        have := hIt.2.2.2
        omega) h
  exact hI

theorem caseBody_values {w : World} {y x : Int} {st st1 : List Int × Rand} {k : Rule}
    (h : caseBody w y x st k = .ok st1) (hv : ∀ v ∈ st.1, 0 ≤ v ∧ v ≤ nImg) :
    ∀ v ∈ st1.1, 0 ≤ v ∧ v ≤ nImg := by
  have hzero : ∀ next, sliceSet st.1 (y * w.width + x) 0 = .ok next →
      ∀ v ∈ next, 0 ≤ v ∧ v ≤ nImg := by
    intro next hs v hmem
    rw [sliceSet_of_ok hs] at hmem
    rcases List.mem_or_eq_of_mem_set hmem with h1 | h1
    · exact hv v h1
    · simp [h1, nImg]
  have hdraw : ∀ (j : Int) (r1 : Rand) next, st.2.Intn nImg = .ok (j, r1) →
      sliceSet st.1 (y * w.width + x) (j + 1) = .ok next →
      ∀ v ∈ next, 0 ≤ v ∧ v ≤ nImg := by
    intro j r1 next hj hs v hmem
    have hk := Intn_of_ok hj
    rw [sliceSet_of_ok hs] at hmem
    rcases List.mem_or_eq_of_mem_set hmem with h1 | h1
    · exact hv v h1
    · simp only [nImg] at hk ⊢
      omega
  cases k
  case rule1 =>
    simp only [caseBody] at h
    cases hs : sliceSet st.1 (y * w.width + x) 0 with
    | error e => rw [hs] at h; exact Except.noConfusion h
    | ok next =>
      rw [hs] at h
      rw [← Except.ok.inj h]
      exact hzero next hs
  case rule3 =>
    simp only [caseBody] at h
    cases hs : sliceSet st.1 (y * w.width + x) 0 with
    | error e => rw [hs] at h; exact Except.noConfusion h
    | ok next =>
      rw [hs] at h
      rw [← Except.ok.inj h]
      exact hzero next hs
  case rule2 =>
    simp only [caseBody] at h
    cases hj : st.2.Intn nImg with
    | error e => rw [hj] at h; exact Except.noConfusion h
    | ok p =>
      obtain ⟨j, r1⟩ := p
      rw [hj] at h
      simp only at h
      cases hs : sliceSet st.1 (y * w.width + x) (j + 1) with
      | error e => rw [hs] at h; exact Except.noConfusion h
      | ok next =>
        rw [hs] at h
        rw [← Except.ok.inj h]
        exact hdraw j r1 next hj hs
  case rule4 =>
    simp only [caseBody] at h
    cases hj : st.2.Intn nImg with
    | error e => rw [hj] at h; exact Except.noConfusion h
    | ok p =>
      obtain ⟨j, r1⟩ := p
      rw [hj] at h
      simp only at h
      cases hs : sliceSet st.1 (y * w.width + x) (j + 1) with
      | error e => rw [hs] at h; exact Except.noConfusion h
      | ok next =>
        rw [hs] at h
        rw [← Except.ok.inj h]
        exact hdraw j r1 next hj hs

theorem runSwitch_values {w : World} {y x pop : Int} {st st1 : List Int × Rand}
    (hv : ∀ v ∈ st.1, 0 ≤ v ∧ v ≤ nImg) :
    ∀ l : List Rule, runSwitch w y x pop st l = .ok st1 → ∀ v ∈ st1.1, 0 ≤ v ∧ v ≤ nImg := by
  intro l
  induction l with
  | nil =>
    intro h
    rw [← (Except.ok.inj h : st = st1)]
    exact hv
  | cons k ks ih =>
    intro h
    simp only [runSwitch] at h
    cases hg : caseGuard w y x pop k with
    | error e => rw [hg] at h; exact Except.noConfusion h
    | ok b =>
      rw [hg] at h
      cases b with
      | true => exact caseBody_values h hv
      | false => exact ih h

theorem updateCell_values {w : World} {y x : Int} {st st1 : List Int × Rand}
    (h : updateCell w y x st = .ok st1) (hv : ∀ v ∈ st.1, 0 ≤ v ∧ v ≤ nImg) :
    ∀ v ∈ st1.1, 0 ≤ v ∧ v ≤ nImg := by
  rw [← updateCellOrdered_source] at h
  unfold updateCellOrdered at h
  cases hc : neighbourCount w.area w.width w.height x y with
  | error e => rw [hc] at h; exact Except.noConfusion h
  | ok pop =>
    rw [hc] at h
    exact runSwitch_values hv sourceOrder h

theorem Update_values_of_ok {w w1 : World} {r r1 : Rand} (h : w.Update r = .ok (w1, r1)) :
    ∀ v ∈ w1.area, 0 ≤ v ∧ v ≤ nImg := by
  unfold World.Update makeSlice at h
  split_ifs at h with hneg
  simp only at h
  cases hl : forLoop 0 w.height
      (fun y st => forLoop 0 w.width (fun x st1 => updateCell w y x st1) st)
      (List.replicate (w.width * w.height).toNat 0, r) with
  | error e => rw [hl] at h; exact Except.noConfusion h
  | ok st =>
    rw [hl] at h
    have hw1 : ({ w with area := st.1 }, st.2) = (w1, r1) := Except.ok.inj h
    have harea : st.1 = w1.area := congrArg (fun p => p.1.area) hw1
    rw [← harea]
    exact forLoop_ok_inv (fun _ (t : List Int × Rand) => ∀ v ∈ t.1, 0 ≤ v ∧ v ≤ nImg)
      (fun y t => forLoop 0 w.width (fun x t1 => updateCell w y x t1) t) 0 w.height _ st
      (fun v hv => by rw [List.eq_of_mem_replicate hv]; simp [nImg])
      (fun y t t1 _ hIt hb =>
        forLoop_ok_inv (fun _ (u : List Int × Rand) => ∀ v ∈ u.1, 0 ≤ v ∧ v ≤ nImg)
          (fun x u => updateCell w y x u) 0 w.width t t1 hIt
          (fun x u u1 _ hIu hbu => updateCell_values hbu hIu) hb) hl

theorem updateN_values_of_ok : ∀ (k : Nat) (w wk : World) (r rk : Rand),
    (∀ v ∈ w.area, 0 ≤ v ∧ v ≤ nImg) → updateN k w r = .ok (wk, rk) →
    ∀ v ∈ wk.area, 0 ≤ v ∧ v ≤ nImg := by
  intro k
  induction k with
  | zero =>
    intro w wk r rk hv h
    have hw : w = wk := congrArg Prod.fst (Except.ok.inj h)
    rw [← hw]
    exact hv
  | succ k ih =>
    intro w wk r rk _ h
    simp only [updateN] at h
    cases hu : w.Update r with
    | error e => rw [hu] at h; exact Except.noConfusion h
    | ok p =>
      obtain ⟨w1, r1⟩ := p
      rw [hu] at h
      exact ih w1 wk r1 rk (Update_values_of_ok hu) h

/-- C1: after `Update`, the cell at every in-bounds `(x, y)` is alive (`> 0`) if and only if,
in the pre-step area, `neighbourCount(x, y) = 3`, or the cell was alive and
`neighbourCount(x, y) = 2`: the live/dead pattern is one classical Game of Life step
computed from the pre-step snapshot. -/
theorem Update_is_life_step (w : World) (r : Rand)
    (hlen : (w.area.length : Int) = w.width * w.height) :
    ∃ w1 r1, w.Update r = .ok (w1, r1) ∧
      ∀ x y, 0 ≤ x → x < w.width → 0 ≤ y → y < w.height →
        ∃ pop cur v, neighbourCount w.area w.width w.height x y = .ok pop ∧
          sliceGet w.area (y * w.width + x) = .ok cur ∧
          sliceGet w1.area (y * w.width + x) = .ok v ∧
          (v > 0 ↔ (pop = 3 ∨ (cur > 0 ∧ pop = 2))) := by
  obtain ⟨w1, r1, hrun, _, _, _, hcells⟩ := Update_cells w r hlen
  refine ⟨w1, r1, hrun, ?_⟩
  intro x y hx0 hx hy0 hy
  obtain ⟨pop, cur, v, h1, h2, h3, h4, h5⟩ := hcells x y hx0 hx hy0 hy
  refine ⟨pop, cur, v, h1, h2, h3, ?_, ?_⟩
  · intro hv
    by_contra hn
    have := h5 hn
    omega
  · intro h
    have := h4 h
    omega

/-- Witness of C1 on the 3x3 blinker. -/
theorem Update_is_life_step_witness :
    ((blinker.area.length : Int) = blinker.width * blinker.height) ∧
    ∃ w1 r1, blinker.Update countingRand = .ok (w1, r1) ∧
      ∀ x y, 0 ≤ x → x < blinker.width → 0 ≤ y → y < blinker.height →
        ∃ pop cur v, neighbourCount blinker.area blinker.width blinker.height x y = .ok pop ∧
          sliceGet blinker.area (y * blinker.width + x) = .ok cur ∧
          sliceGet w1.area (y * blinker.width + x) = .ok v ∧
          (v > 0 ↔ (pop = 3 ∨ (cur > 0 ∧ pop = 2))) :=
  ⟨by decide, Update_is_life_step blinker countingRand (by decide)⟩

/-- C2: for an area of length `width*height` and every `(x, y)`, `neighbourCount` returns
the number of pairs `(i, j)` of `{-1,0,1} x {-1,0,1}` other than `(0, 0)` whose position
`(x+i, y+j)` lies inside the grid and holds a value `> 0`; positions outside the grid
contribute nothing and nothing wraps around. -/
theorem neighbourCount_counts_moore (a : List Int) (width height x y : Int)
    (hlen : (a.length : Int) = width * height) :
    neighbourCount a width height x y = .ok (mooreCount a width height x y) :=
  neighbourCount_eq_mooreCount hlen x y

/-- Witness of C2 at the centre of the blinker. -/
theorem neighbourCount_counts_moore_witness :
    ((blinker.area.length : Int) = 3 * 3) ∧
    neighbourCount blinker.area 3 3 1 1 = .ok (mooreCount blinker.area 3 3 1 1) :=
  ⟨by decide, neighbourCount_counts_moore blinker.area 3 3 1 1 (by decide)⟩

/-- C3: for every grid and every `(x, y)`, `neighbourCount` returns a count between 0 and 8. -/
theorem neighbourCount_range (a : List Int) (width height x y : Int)
    (hlen : (a.length : Int) = width * height) :
    ∃ c, neighbourCount a width height x y = .ok c ∧ 0 ≤ c ∧ c ≤ 8 :=
  ⟨mooreCount a width height x y, neighbourCount_eq_mooreCount hlen x y,
    mooreCount_bounds a width height x y⟩

/-- Witness of C3 at the centre of the all-alive 3x3 world. -/
theorem neighbourCount_range_witness :
    ((fullWorld.area.length : Int) = 3 * 3) ∧
    ∃ c, neighbourCount fullWorld.area 3 3 1 1 = .ok c ∧ 0 ≤ c ∧ c ≤ 8 :=
  ⟨by decide, neighbourCount_range fullWorld.area 3 3 1 1 (by decide)⟩

/-- C4: on a grid with `width > 1` and `height > 1`, `neighbourCount` at each of the four
corner cells `(0,0)`, `(width-1,0)`, `(0,height-1)`, `(width-1,height-1)` is at most 3,
whatever the cell contents. -/
theorem neighbourCount_corner (a : List Int) (width height : Int)
    (hlen : (a.length : Int) = width * height) (_hw : 1 < width) (_hh : 1 < height) :
    (∃ c, neighbourCount a width height 0 0 = .ok c ∧ c ≤ 3) ∧
    (∃ c, neighbourCount a width height (width - 1) 0 = .ok c ∧ c ≤ 3) ∧
    (∃ c, neighbourCount a width height 0 (height - 1) = .ok c ∧ c ≤ 3) ∧
    (∃ c, neighbourCount a width height (width - 1) (height - 1) = .ok c ∧ c ≤ 3) := by
  refine ⟨⟨_, neighbourCount_eq_mooreCount hlen _ _, ?_⟩,
    ⟨_, neighbourCount_eq_mooreCount hlen _ _, ?_⟩,
    ⟨_, neighbourCount_eq_mooreCount hlen _ _, ?_⟩,
    ⟨_, neighbourCount_eq_mooreCount hlen _ _, ?_⟩⟩
  · have h := mooreCount_le_countP (a := a) (W := width) (H := height) (x := 0) (y := 0)
      (fun p => decide (0 ≤ p.1 ∧ 0 ≤ p.2)) (fun p _ hp => by
        have := liveNeighbour_inside hp
        simp only [decide_eq_true_eq]
        omega)
    have h3 : mooreOffsets.countP (fun p => decide (0 ≤ p.1 ∧ 0 ≤ p.2)) = 3 := by decide
    rw [h3] at h
    exact h
  · have h := mooreCount_le_countP (a := a) (W := width) (H := height) (x := width - 1)
      (y := 0) (fun p => decide (p.1 ≤ 0 ∧ 0 ≤ p.2)) (fun p _ hp => by
        have := liveNeighbour_inside hp
        simp only [decide_eq_true_eq]
        omega)
    have h3 : mooreOffsets.countP (fun p => decide (p.1 ≤ 0 ∧ 0 ≤ p.2)) = 3 := by decide
    rw [h3] at h
    exact h
  · have h := mooreCount_le_countP (a := a) (W := width) (H := height) (x := 0)
      (y := height - 1) (fun p => decide (0 ≤ p.1 ∧ p.2 ≤ 0)) (fun p _ hp => by
        have := liveNeighbour_inside hp
        simp only [decide_eq_true_eq]
        omega)
    have h3 : mooreOffsets.countP (fun p => decide (0 ≤ p.1 ∧ p.2 ≤ 0)) = 3 := by decide
    rw [h3] at h
    exact h
  · have h := mooreCount_le_countP (a := a) (W := width) (H := height) (x := width - 1)
      (y := height - 1) (fun p => decide (p.1 ≤ 0 ∧ p.2 ≤ 0)) (fun p _ hp => by
        have := liveNeighbour_inside hp
        simp only [decide_eq_true_eq]
        omega)
    have h3 : mooreOffsets.countP (fun p => decide (p.1 ≤ 0 ∧ p.2 ≤ 0)) = 3 := by decide
    rw [h3] at h
    exact h

/-- Witness of C4 on the all-alive 3x3 world, whose corners have exactly 3 live neighbours. -/
theorem neighbourCount_corner_witness :
    ((fullWorld.area.length : Int) = 3 * 3 ∧ (1 : Int) < 3 ∧ (1 : Int) < 3) ∧
    ((∃ c, neighbourCount fullWorld.area 3 3 0 0 = .ok c ∧ c ≤ 3) ∧
    (∃ c, neighbourCount fullWorld.area 3 3 (3 - 1) 0 = .ok c ∧ c ≤ 3) ∧
    (∃ c, neighbourCount fullWorld.area 3 3 0 (3 - 1) = .ok c ∧ c ≤ 3) ∧
    (∃ c, neighbourCount fullWorld.area 3 3 (3 - 1) (3 - 1) = .ok c ∧ c ≤ 3)) :=
  ⟨⟨by decide, by decide, by decide⟩,
    neighbourCount_corner fullWorld.area 3 3 (by decide) (by decide) (by decide)⟩

/-- C5: `neighbourCount` never counts the cell itself: for in-bounds `(x, y)` and two areas
of length `width*height` that differ only at index `y*width+x`, both calls return the same
count. -/
theorem neighbourCount_ignores_self (a1 a2 : List Int) (width height x y : Int)
    (hlen1 : (a1.length : Int) = width * height) (hlen2 : (a2.length : Int) = width * height)
    (hx0 : 0 ≤ x) (hx : x < width) (_hy0 : 0 ≤ y) (_hy : y < height)
    (hdiff : ∀ n : Nat, (n : Int) ≠ y * width + x → a1[n]? = a2[n]?) :
    ∃ c, neighbourCount a1 width height x y = .ok c ∧
      neighbourCount a2 width height x y = .ok c := by
  refine ⟨mooreCount a1 width height x y, neighbourCount_eq_mooreCount hlen1 x y, ?_⟩
  rw [neighbourCount_eq_mooreCount hlen2 x y]
  have hfilter : mooreOffsets.filter (liveNeighbour a1 width height x y) =
      mooreOffsets.filter (liveNeighbour a2 width height x y) := by
    apply List.filter_congr
    intro p hp
    have hp0 : p ≠ (0, 0) := by
      have := (List.mem_filter.1 hp).2
      simpa using this
    unfold liveNeighbour
    by_cases hin : 0 ≤ x + p.1 ∧ x + p.1 < width ∧ 0 ≤ y + p.2 ∧ y + p.2 < height
    · have hb := idx_bounds hin.1 hin.2.1 hin.2.2.1 hin.2.2.2
      have hne : ((((y + p.2) * width + (x + p.1)).toNat : Nat) : Int) ≠ y * width + x := by
        intro he
        have he2 : (y + p.2) * width + (x + p.1) = y * width + x := by omega
        have := idx_inj hin.1 hin.2.1 hx0 hx he2
        apply hp0
        ext
        · show p.1 = 0
          omega
        · show p.2 = 0
          omega
      rw [hdiff _ hne]
    · simp [hin]
  unfold mooreCount
  rw [hfilter]

/-- Witness of C5: the blinker and the blinker with its centre cell cleared. -/
theorem neighbourCount_ignores_self_witness :
    ∃ c, neighbourCount [0, 1, 0, 0, 1, 0, 0, 1, 0] 3 3 1 1 = .ok c ∧
      neighbourCount [0, 1, 0, 0, 0, 0, 0, 1, 0] 3 3 1 1 = .ok c :=
  neighbourCount_ignores_self [0, 1, 0, 0, 1, 0, 0, 1, 0] [0, 1, 0, 0, 0, 0, 0, 1, 0] 3 3 1 1
    (by decide) (by decide) (by decide) (by decide) (by decide) (by decide)
    (by
      intro n hn
      have h4 : n ≠ 4 := by
        intro h
        subst h
        exact hn (by decide)
      match n, h4 with
      | 0, _ => rfl
      | 1, _ => rfl
      | 2, _ => rfl
      | 3, _ => rfl
      | 4, h => exact absurd rfl h
      | 5, _ => rfl
      | 6, _ => rfl
      | 7, _ => rfl
      | 8, _ => rfl
      | k + 9, _ => rfl)

/-- C6, as stated, fails: Go's `width*height` wraps at 64 bits.  `NewWorld(2^32, 2^32, 1)`
makes an empty area and panics on the first write of `init`; `NewWorld(2^32, 2^32, 0)`
returns a World whose area has length 0, not `width*height`. -/
theorem NewWorld_wraps_dimensions :
    ((0 : Int) < 2 ^ 32 ∧ wrapInt (2 ^ 32 * 2 ^ 32) = 0) ∧
    NewWorld (2 ^ 32) (2 ^ 32) 1 countingRand = .error .indexOutOfRange ∧
    NewWorld (2 ^ 32) (2 ^ 32) 0 countingRand =
      .ok ({ area := [], width := 2 ^ 32, height := 2 ^ 32 }, countingRand) ∧
    ((([] : List Int).length : Int) ≠ 2 ^ 32 * 2 ^ 32) :=
  ⟨⟨by decide, by decide⟩, rfl, rfl, by decide⟩

/-- C6, amended: for `width > 0` and `height > 0` whose product `width*height` is below
`2^63` (it does not wrap as a Go `int`), `NewWorld(width, height, n)` returns a World whose
`width` and `height` fields equal the arguments and whose area has length `width*height`;
after any number `k` of `Update` calls the fields are unchanged and the area still has
length `width*height`. -/
theorem NewWorld_dimensions (width height n : Int) (r : Rand)
    (hw : 0 < width) (hh : 0 < height) (hr : width * height < 2 ^ 63) :
    ∃ w r1, NewWorld width height n r = .ok (w, r1) ∧
      w.width = width ∧ w.height = height ∧ (w.area.length : Int) = width * height ∧
      ∀ k : Nat, ∃ wk rk, updateN k w r1 = .ok (wk, rk) ∧
        wk.width = width ∧ wk.height = height ∧ (wk.area.length : Int) = width * height := by
  obtain ⟨w, r1, hrun, hok⟩ := NewWorld_ok hw hh hr n r
  refine ⟨w, r1, hrun, hok.1, hok.2.1, hok.2.2.1, ?_⟩
  intro k
  obtain ⟨wk, rk, hk, hokk⟩ := updateN_ok k w r1 hok
  exact ⟨wk, rk, hk, hokk.1, hokk.2.1, hokk.2.2.1⟩

/-- Witness of amended C6 for the world that `main` builds: 16x16 with 64 initial draws. -/
theorem NewWorld_dimensions_witness :
    ((0 : Int) < 16 ∧ (0 : Int) < 16 ∧ (16 : Int) * 16 < 2 ^ 63) ∧
    ∃ w r1, NewWorld 16 16 64 countingRand = .ok (w, r1) ∧
      w.width = 16 ∧ w.height = 16 ∧ (w.area.length : Int) = 16 * 16 ∧
      ∀ k : Nat, ∃ wk rk, updateN k w r1 = .ok (wk, rk) ∧
        wk.width = 16 ∧ wk.height = 16 ∧ (wk.area.length : Int) = 16 * 16 :=
  ⟨⟨by decide, by decide, by decide⟩,
    NewWorld_dimensions 16 16 64 countingRand (by decide) (by decide) (by decide)⟩

/-- C7: every cell value is a valid cell state, with `nImg = 3`.  For `width, height > 0`,
every World that `NewWorld` returns, and every World reached from it by any number of
`Update` calls that return, has every element of its area in `[0, nImg]`; when the product
`width*height` is below `2^63` (no wrap as a Go `int`) `NewWorld` and every one of these
`Update` calls do return.  And a single `Update` of any World `w` with
`len(area) = width*height`, whatever integers the previous area held, returns a World in
which every element of the area is in `[0, 3]`. -/
theorem cell_values_valid (width height n : Int) (r : Rand) (hw : 0 < width)
    (hh : 0 < height)
    (w : World) (rw : Rand) (hlen : (w.area.length : Int) = w.width * w.height) :
    nImg = 3 ∧
    (∀ w0 r0, NewWorld width height n r = .ok (w0, r0) →
      ∀ (k : Nat) (wk : World) (rk : Rand), updateN k w0 r0 = .ok (wk, rk) →
        ∀ v ∈ wk.area, 0 ≤ v ∧ v ≤ nImg) ∧
    (width * height < 2 ^ 63 →
      ∃ w0 r0, NewWorld width height n r = .ok (w0, r0) ∧
        ∀ k : Nat, ∃ wk rk, updateN k w0 r0 = .ok (wk, rk) ∧
          ∀ v ∈ wk.area, 0 ≤ v ∧ v ≤ nImg) ∧
    (∃ w1 r1, w.Update rw = .ok (w1, r1) ∧ ∀ v ∈ w1.area, 0 ≤ v ∧ v ≤ 3) := by
  refine ⟨rfl, ?_, ?_, ?_⟩
  · intro w0 r0 hnew k wk rk hk
    exact updateN_values_of_ok k w0 wk r0 rk (NewWorld_of_ok hnew).2.2.1 hk
  · intro hr
    obtain ⟨w0, r0, hrun, hok⟩ := NewWorld_ok hw hh hr n r
    refine ⟨w0, r0, hrun, ?_⟩
    intro k
    obtain ⟨wk, rk, hk, hokk⟩ := updateN_ok k w0 r0 hok
    exact ⟨wk, rk, hk, hokk.2.2.2⟩
  · obtain ⟨w1, r1, hrun, hok⟩ := Update_values w rw hlen
    exact ⟨w1, r1, hrun, hok.2.2.2⟩

/-- Witness of C7: a 4x4 world with 5 initial draws, and a 2x2 world holding values outside
`[0, 3]` that one `Update` brings back into range. -/
theorem cell_values_valid_witness :
    ((0 : Int) < 4 ∧ (0 : Int) < 4 ∧ (4 : Int) * 4 < 2 ^ 63 ∧
      (([7, -2, 9, 5] : List Int).length : Int) = 2 * 2) ∧
    (nImg = 3 ∧
    (∀ w0 r0, NewWorld 4 4 5 countingRand = .ok (w0, r0) →
      ∀ (k : Nat) (wk : World) (rk : Rand), updateN k w0 r0 = .ok (wk, rk) →
        ∀ v ∈ wk.area, 0 ≤ v ∧ v ≤ nImg) ∧
    ((4 : Int) * 4 < 2 ^ 63 →
      ∃ w0 r0, NewWorld 4 4 5 countingRand = .ok (w0, r0) ∧
        ∀ k : Nat, ∃ wk rk, updateN k w0 r0 = .ok (wk, rk) ∧
          ∀ v ∈ wk.area, 0 ≤ v ∧ v ≤ nImg) ∧
    (∃ w1 r1, World.Update { area := [7, -2, 9, 5], width := 2, height := 2 } countingRand =
      .ok (w1, r1) ∧ ∀ v ∈ w1.area, 0 ≤ v ∧ v ≤ 3)) :=
  ⟨⟨by decide, by decide, by decide, by decide⟩,
    cell_values_valid 4 4 5 countingRand (by decide) (by decide)
      { area := [7, -2, 9, 5], width := 2, height := 2 } countingRand (by decide)⟩

/-- C8: under-population.  Every in-bounds cell whose pre-step `neighbourCount` is `< 2` is
Dead (`0`) after `Update`, whatever its prior state; and for every grid with exactly one
live cell, every cell of the grid is Dead after `Update`. -/
theorem Update_underpopulation (w : World) (r : Rand)
    (hlen : (w.area.length : Int) = w.width * w.height) :
    ∃ w1 r1, w.Update r = .ok (w1, r1) ∧
      (∀ x y, 0 ≤ x → x < w.width → 0 ≤ y → y < w.height →
        ∃ pop, neighbourCount w.area w.width w.height x y = .ok pop ∧
          (pop < 2 → sliceGet w1.area (y * w.width + x) = .ok 0)) ∧
      (∀ n0 : Nat, (∃ v0, w.area[n0]? = some v0 ∧ 0 < v0) →
        (∀ (n : Nat) (v : Int), w.area[n]? = some v → 0 < v → n = n0) →
        ∀ v ∈ w1.area, v = 0) := by
  obtain ⟨w1, r1, hrun, _, _, _, hcells⟩ := Update_cells w r hlen
  refine ⟨w1, r1, hrun, ?_, ?_⟩
  · intro x y hx0 hx hy0 hy
    obtain ⟨pop, cur, v, h1, _, h3, _, h5⟩ := hcells x y hx0 hx hy0 hy
    refine ⟨pop, h1, fun hp => ?_⟩
    have hv : v = 0 := h5 (by omega)
    rw [h3, hv]
  · intro n0 _ hsingle
    obtain ⟨w2, hrun2, _, hall⟩ := Update_all_dead w r hlen (fun x y _ _ _ _ => by
      have h := mooreCount_le_one_of_single (W := w.width) (H := w.height) hsingle x y
      have h2 : mooreCount w.area w.width w.height x y ≠ 2 := by omega
      have h3 : mooreCount w.area w.width w.height x y ≠ 3 := by omega
      simp [cellAlive, lifeRule, h2, h3])
    rw [hrun] at hrun2
    have hw : w1 = w2 := congrArg Prod.fst (Except.ok.inj hrun2)
    rw [hw]
    exact hall

/-- Witness of C8: the 3x3 world whose only live cell is the centre. -/
theorem Update_underpopulation_witness :
    ((loneCell.area.length : Int) = loneCell.width * loneCell.height) ∧
    ∃ w1 r1, loneCell.Update countingRand = .ok (w1, r1) ∧
      (∀ x y, 0 ≤ x → x < loneCell.width → 0 ≤ y → y < loneCell.height →
        ∃ pop, neighbourCount loneCell.area loneCell.width loneCell.height x y = .ok pop ∧
          (pop < 2 → sliceGet w1.area (y * loneCell.width + x) = .ok 0)) ∧
      (∀ n0 : Nat, (∃ v0, loneCell.area[n0]? = some v0 ∧ 0 < v0) →
        (∀ (n : Nat) (v : Int), loneCell.area[n]? = some v → 0 < v → n = n0) →
        ∀ v ∈ w1.area, v = 0) :=
  ⟨by decide, Update_underpopulation loneCell countingRand (by decide)⟩

/-- C9: survival.  Every in-bounds cell that is alive (`> 0`) before the step with pre-step
`neighbourCount` equal to 2 or 3 is alive after `Update`, and its new value is in `[1, 3]`. -/
theorem Update_survival (w : World) (r : Rand)
    (hlen : (w.area.length : Int) = w.width * w.height) :
    ∃ w1 r1, w.Update r = .ok (w1, r1) ∧
      ∀ x y, 0 ≤ x → x < w.width → 0 ≤ y → y < w.height →
        ∃ pop cur v, neighbourCount w.area w.width w.height x y = .ok pop ∧
          sliceGet w.area (y * w.width + x) = .ok cur ∧
          sliceGet w1.area (y * w.width + x) = .ok v ∧
          (cur > 0 → pop = 2 ∨ pop = 3 → v > 0 ∧ 1 ≤ v ∧ v ≤ 3) := by
  obtain ⟨w1, r1, hrun, _, _, _, hcells⟩ := Update_cells w r hlen
  refine ⟨w1, r1, hrun, ?_⟩
  intro x y hx0 hx hy0 hy
  obtain ⟨pop, cur, v, h1, h2, h3, h4, _⟩ := hcells x y hx0 hx hy0 hy
  refine ⟨pop, cur, v, h1, h2, h3, fun hc hp => ?_⟩
  have := h4 (by omega)
  omega

/-- Witness of C9 on the blinker, whose centre cell is alive with two live neighbours. -/
theorem Update_survival_witness :
    ((blinker.area.length : Int) = blinker.width * blinker.height) ∧
    ∃ w1 r1, blinker.Update countingRand = .ok (w1, r1) ∧
      ∀ x y, 0 ≤ x → x < blinker.width → 0 ≤ y → y < blinker.height →
        ∃ pop cur v, neighbourCount blinker.area blinker.width blinker.height x y = .ok pop ∧
          sliceGet blinker.area (y * blinker.width + x) = .ok cur ∧
          sliceGet w1.area (y * blinker.width + x) = .ok v ∧
          (cur > 0 → pop = 2 ∨ pop = 3 → v > 0 ∧ 1 ≤ v ∧ v ≤ 3) :=
  ⟨by decide, Update_survival blinker countingRand (by decide)⟩

/-- C10: over-population.  Every in-bounds cell whose pre-step `neighbourCount` is 4 or more
is Dead (`0`) after `Update`, whether it was alive or dead before. -/
theorem Update_overpopulation (w : World) (r : Rand)
    (hlen : (w.area.length : Int) = w.width * w.height) :
    ∃ w1 r1, w.Update r = .ok (w1, r1) ∧
      ∀ x y, 0 ≤ x → x < w.width → 0 ≤ y → y < w.height →
        ∃ pop, neighbourCount w.area w.width w.height x y = .ok pop ∧
          (4 ≤ pop → sliceGet w1.area (y * w.width + x) = .ok 0) := by
  obtain ⟨w1, r1, hrun, _, _, _, hcells⟩ := Update_cells w r hlen
  refine ⟨w1, r1, hrun, ?_⟩
  intro x y hx0 hx hy0 hy
  obtain ⟨pop, cur, v, h1, _, h3, _, h5⟩ := hcells x y hx0 hx hy0 hy
  refine ⟨pop, h1, fun hp => ?_⟩
  have hv : v = 0 := h5 (by omega)
  rw [h3, hv]

/-- Witness of C10 on the all-alive 3x3 world, whose centre has eight live neighbours. -/
theorem Update_overpopulation_witness :
    ((fullWorld.area.length : Int) = fullWorld.width * fullWorld.height) ∧
    ∃ w1 r1, fullWorld.Update countingRand = .ok (w1, r1) ∧
      ∀ x y, 0 ≤ x → x < fullWorld.width → 0 ≤ y → y < fullWorld.height →
        ∃ pop, neighbourCount fullWorld.area fullWorld.width fullWorld.height x y = .ok pop ∧
          (4 ≤ pop → sliceGet w1.area (y * fullWorld.width + x) = .ok 0) :=
  ⟨by decide, Update_overpopulation fullWorld countingRand (by decide)⟩

/-- C11: birth.  Every in-bounds cell that is Dead before the step with pre-step
`neighbourCount` exactly 3 is alive after `Update`, with a value in `[1, 3]`. -/
theorem Update_birth (w : World) (r : Rand)
    (hlen : (w.area.length : Int) = w.width * w.height) :
    ∃ w1 r1, w.Update r = .ok (w1, r1) ∧
      ∀ x y, 0 ≤ x → x < w.width → 0 ≤ y → y < w.height →
        ∃ pop cur v, neighbourCount w.area w.width w.height x y = .ok pop ∧
          sliceGet w.area (y * w.width + x) = .ok cur ∧
          sliceGet w1.area (y * w.width + x) = .ok v ∧
          (cur ≤ 0 → pop = 3 → v > 0 ∧ 1 ≤ v ∧ v ≤ 3) := by
  obtain ⟨w1, r1, hrun, _, _, _, hcells⟩ := Update_cells w r hlen
  refine ⟨w1, r1, hrun, ?_⟩
  intro x y hx0 hx hy0 hy
  obtain ⟨pop, cur, v, h1, h2, h3, h4, _⟩ := hcells x y hx0 hx hy0 hy
  refine ⟨pop, cur, v, h1, h2, h3, fun _ hp => ?_⟩
  have := h4 (Or.inl hp)
  omega

/-- Witness of C11: a 3x3 grid whose only live cells are three neighbours of the dead centre;
the centre has count 3 and is born. -/
theorem Update_birth_witness :
    ((birthWorld.area.length : Int) = birthWorld.width * birthWorld.height ∧
      neighbourCount birthWorld.area 3 3 1 1 = .ok 3 ∧ sliceGet birthWorld.area 4 = .ok 0) ∧
    ∃ w1 r1, birthWorld.Update countingRand = .ok (w1, r1) ∧
      ∀ x y, 0 ≤ x → x < birthWorld.width → 0 ≤ y → y < birthWorld.height →
        ∃ pop cur v, neighbourCount birthWorld.area birthWorld.width birthWorld.height x y =
            .ok pop ∧
          sliceGet birthWorld.area (y * birthWorld.width + x) = .ok cur ∧
          sliceGet w1.area (y * birthWorld.width + x) = .ok v ∧
          (cur ≤ 0 → pop = 3 → v > 0 ∧ 1 ≤ v ∧ v ≤ 3) :=
  ⟨⟨by decide, rfl, rfl⟩, Update_birth birthWorld countingRand (by decide)⟩

/-- C12: fallthrough.  For every in-bounds cell that is Dead (value `<= 0`) before the step
with pre-step `neighbourCount` exactly 2, no case of the switch matches (the loop body leaves
the buffer and the random source as they are) and the cell is Dead (`0`) after `Update`; a
live cell with the same count 2 survives. -/
theorem Update_fallthrough (w : World) (r : Rand)
    (hlen : (w.area.length : Int) = w.width * w.height) :
    ∃ w1 r1, w.Update r = .ok (w1, r1) ∧
      ∀ x y, 0 ≤ x → x < w.width → 0 ≤ y → y < w.height →
        ∃ pop cur v, neighbourCount w.area w.width w.height x y = .ok pop ∧
          sliceGet w.area (y * w.width + x) = .ok cur ∧
          sliceGet w1.area (y * w.width + x) = .ok v ∧
          (cur ≤ 0 → pop = 2 → (∀ st, updateCell w y x st = .ok st) ∧ v = 0) ∧
          (cur > 0 → pop = 2 → v > 0) := by
  obtain ⟨w1, r1, hrun, _, _, _, hcells⟩ := Update_cells w r hlen
  refine ⟨w1, r1, hrun, ?_⟩
  intro x y hx0 hx hy0 hy
  obtain ⟨pop, cur, v, h1, h2, h3, h4, h5⟩ := hcells x y hx0 hx hy0 hy
  refine ⟨pop, cur, v, h1, h2, h3, fun hc hp => ⟨fun st => ?_, h5 (by omega)⟩, fun hc hp => ?_⟩
  · subst hp
    have hd : decide (cur > 0) = false := by simpa using hc
    simp [updateCell, h1, h2, hd]
  · have := h4 (Or.inr ⟨hc, hp⟩)
    omega

/-- Witness of C12: in `twoNeighbours` the dead cell `(0, 1)` has count 2 and stays dead, the
live cell `(1, 0)` has count 2 and survives. -/
theorem Update_fallthrough_witness :
    ((twoNeighbours.area.length : Int) = twoNeighbours.width * twoNeighbours.height ∧
      neighbourCount twoNeighbours.area 3 3 0 1 = .ok 2 ∧
      neighbourCount twoNeighbours.area 3 3 1 0 = .ok 2) ∧
    ∃ w1 r1, twoNeighbours.Update countingRand = .ok (w1, r1) ∧
      ∀ x y, 0 ≤ x → x < twoNeighbours.width → 0 ≤ y → y < twoNeighbours.height →
        ∃ pop cur v,
          neighbourCount twoNeighbours.area twoNeighbours.width twoNeighbours.height x y =
            .ok pop ∧
          sliceGet twoNeighbours.area (y * twoNeighbours.width + x) = .ok cur ∧
          sliceGet w1.area (y * twoNeighbours.width + x) = .ok v ∧
          (cur ≤ 0 → pop = 2 → (∀ st, updateCell twoNeighbours y x st = .ok st) ∧ v = 0) ∧
          (cur > 0 → pop = 2 → v > 0) :=
  ⟨⟨by decide, rfl, rfl⟩, Update_fallthrough twoNeighbours countingRand (by decide)⟩

/-- C13: variants carry no behavioural difference and are not retained.  For two Worlds with
the same width, height and the same live/dead pattern (`area1[i] > 0` iff `area2[i] > 0` for
all `i`) but arbitrary alive values, `Update` run with the same random source yields the same
next World (same liveness and same variants) and leaves the random source in the same state. -/
theorem Update_variant_blind (w1 w2 : World) (r : Rand)
    (hw : w1.width = w2.width) (hh : w1.height = w2.height)
    (hlen1 : (w1.area.length : Int) = w1.width * w1.height)
    (hlen2 : (w2.area.length : Int) = w2.width * w2.height)
    (hpat : ∀ (i : Nat) (v1 v2 : Int), w1.area[i]? = some v1 → w2.area[i]? = some v2 →
      (0 < v1 ↔ 0 < v2)) :
    ∃ w r1, w1.Update r = .ok (w, r1) ∧ w2.Update r = .ok (w, r1) := by
  obtain ⟨a1, W, H⟩ := w1
  obtain ⟨a2, W2, H2⟩ := w2
  simp only at hw hh hlen1 hlen2 hpat
  subst hw hh
  obtain ⟨w, r1, hrun, _⟩ := Update_spec { area := a1, width := W, height := H } r hlen1
  exact ⟨w, r1, hrun, (Update_congr hlen1 hlen2 hpat r) ▸ hrun⟩

/-- Witness of C13: the blinker and a recoloured blinker give the same next generation. -/
theorem Update_variant_blind_witness :
    ∃ w r1, blinker.Update countingRand = .ok (w, r1) ∧
      blinkerRecoloured.Update countingRand = .ok (w, r1) :=
  Update_variant_blind blinker blinkerRecoloured countingRand rfl rfl (by decide) (by decide)
    (by
      intro i v1 v2 h1 h2
      match i with
      | 0 | 1 | 2 | 3 | 4 | 5 | 6 | 7 | 8 =>
        simp only [blinker, blinkerRecoloured, List.getElem?_cons_zero,
          List.getElem?_cons_succ, Option.some.injEq] at h1 h2
        subst h1 h2
        decide
      | k + 9 =>
        simp [blinker] at h1)

/-- C14: for `width > 0`, `height > 0` and `maxInitLiveCells n >= 0`, every World returned by
`NewWorld(width, height, n)` has at most `n` cells with value `> 0` (and at least 0), and with
`n = 0` every cell is Dead; when the product `width*height` is below `2^63` (no wrap as a Go
`int`) `NewWorld` does return a World. -/
theorem NewWorld_live_bound (width height n : Int) (r : Rand)
    (hw : 0 < width) (hh : 0 < height) (hn : 0 ≤ n) :
    (∀ w r1, NewWorld width height n r = .ok (w, r1) →
      0 ≤ (liveCells w.area : Int) ∧ (liveCells w.area : Int) ≤ n ∧
      (n = 0 → ∀ v ∈ w.area, v = 0)) ∧
    (width * height < 2 ^ 63 → ∃ w r1, NewWorld width height n r = .ok (w, r1)) := by
  constructor
  · intro w r1 hrun
    obtain ⟨_, _, hvals, hlive⟩ := NewWorld_of_ok hrun
    rw [max_eq_right hn] at hlive
    refine ⟨Int.natCast_nonneg _, hlive, ?_⟩
    intro h0 v hv
    have hz : liveCells w.area = 0 := by omega
    unfold liveCells at hz
    rw [List.countP_eq_zero] at hz
    have h1 := hz v hv
    have h2 := (hvals v hv).1
    simp only [gt_iff_lt, decide_eq_true_eq, not_lt] at h1
    omega
  · intro hr
    obtain ⟨w, r1, hrun, _⟩ := NewWorld_ok hw hh hr n r
    exact ⟨w, r1, hrun⟩

/-- Witness of C14 for the world that `main` builds: 16x16 with a budget of 64. -/
theorem NewWorld_live_bound_witness :
    ((0 : Int) < 16 ∧ (0 : Int) < 16 ∧ (0 : Int) ≤ 64) ∧
    ((∀ w r1, NewWorld 16 16 64 countingRand = .ok (w, r1) →
      0 ≤ (liveCells w.area : Int) ∧ (liveCells w.area : Int) ≤ 64 ∧
      ((64 : Int) = 0 → ∀ v ∈ w.area, v = 0)) ∧
    ((16 : Int) * 16 < 2 ^ 63 → ∃ w r1, NewWorld 16 16 64 countingRand = .ok (w, r1))) :=
  ⟨⟨by decide, by decide, by decide⟩,
    NewWorld_live_bound 16 16 64 countingRand (by decide) (by decide) (by decide)⟩

/-- C15: for `width > 0`, `height > 0` and `maxInitLiveCells n > width*height`, with `n` a Go
`int` (`n < 2^63`), `NewWorld` never errors: every step of the loop of `init`, run on a world
of these dimensions, succeeds (its write index `y*width+x` is within the buffer), `NewWorld`
returns a World, and that World has at most `width*height` live cells. -/
theorem NewWorld_over_budget (width height n : Int) (r : Rand)
    (hw : 0 < width) (hh : 0 < height) (hn : width * height < n) (hint : n < 2 ^ 63) :
    (∀ st : World × Rand, WorldOK width height st.1 → ∃ st1, initStep st = .ok st1) ∧
    ∃ w r1, NewWorld width height n r = .ok (w, r1) ∧
      (liveCells w.area : Int) ≤ width * height := by
  have hr : width * height < 2 ^ 63 := lt_trans hn hint
  refine ⟨fun st hst => ?_, ?_⟩
  · obtain ⟨st1, h1, _⟩ := initStep_ok hw hh hr st hst
    exact ⟨st1, h1⟩
  · obtain ⟨w, r1, hrun, hok, _⟩ := NewWorld_live hw hh hr n r
    refine ⟨w, r1, hrun, ?_⟩
    rw [← hok.2.2.1]
    have hle : liveCells w.area ≤ w.area.length := List.countP_le_length _
    exact_mod_cast hle

/-- Witness of C15: a 2x2 world with a budget of 9 draws. -/
theorem NewWorld_over_budget_witness :
    ((0 : Int) < 2 ∧ (0 : Int) < 2 ∧ (2 : Int) * 2 < 9 ∧ (9 : Int) < 2 ^ 63) ∧
    ((∀ st : World × Rand, WorldOK 2 2 st.1 → ∃ st1, initStep st = .ok st1) ∧
    ∃ w r1, NewWorld 2 2 9 countingRand = .ok (w, r1) ∧
      (liveCells w.area : Int) ≤ 2 * 2) :=
  ⟨⟨by decide, by decide, by decide, by decide⟩,
    NewWorld_over_budget 2 2 9 countingRand (by decide) (by decide) (by decide) (by decide)⟩

/-- C16, as stated, fails: `NewWorld(0, 5, 0)` allocates an empty area, runs no iteration of
the loop of `init` and returns a World. -/
theorem NewWorld_zero_width_returns :
    ((0 : Int) ≤ 0 ∨ (5 : Int) ≤ 0) ∧
    NewWorld 0 5 0 countingRand = .ok ({ area := [], width := 0, height := 5 }, countingRand) :=
  ⟨Or.inl (by decide), rfl⟩

/-- C16, amended: for `width <= 0` or `height <= 0`, `NewWorld(width, height, n)` panics
exactly when `n > 0` or the Go product `width*height`, wrapped to 64 bits, is negative; when
`n <= 0` and that product is `>= 0` the code, which checks no dimension, returns a World with
the given fields and a zeroed area whose length is that product. -/
theorem NewWorld_nonpositive (width height n : Int) (r : Rand)
    (h : width ≤ 0 ∨ height ≤ 0) :
    ((∃ e, NewWorld width height n r = .error e) ↔
      (0 < n ∨ wrapInt (width * height) < 0)) ∧
    (n ≤ 0 → 0 ≤ wrapInt (width * height) →
      NewWorld width height n r =
        .ok ({ area := List.replicate (wrapInt (width * height)).toNat 0, width := width,
               height := height }, r)) := by
  have hret : n ≤ 0 → 0 ≤ wrapInt (width * height) →
      NewWorld width height n r =
        .ok ({ area := List.replicate (wrapInt (width * height)).toNat 0, width := width,
               height := height }, r) := by
    intro hn hp
    have h0 : n.toNat = 0 := by omega
    rw [NewWorld_of_make_ok hp, h0]
    rfl
  refine ⟨⟨?_, ?_⟩, hret⟩
  · rintro ⟨e, he⟩
    by_contra hcon
    have hn : n ≤ 0 := by omega
    have hp : 0 ≤ wrapInt (width * height) := by omega
    rw [hret hn hp] at he
    exact Except.noConfusion he
  · rintro (hn | hp)
    · by_cases hneg : wrapInt (width * height) < 0
      · exact ⟨.makeNegativeLen, by simp [NewWorld, makeSlice, hneg]⟩
      · obtain ⟨k, hk⟩ : ∃ k, n.toNat = k + 1 := ⟨n.toNat - 1, by omega⟩
        refine ⟨.intnNonPositive, ?_⟩
        rw [NewWorld_of_make_ok (not_lt.mp hneg), hk]
        simp only [forRange, initStep_nonpositive h]
    · exact ⟨.makeNegativeLen, by simp [NewWorld, makeSlice, hp]⟩

/-- Witness of amended C16 at `NewWorld(-2^62, 4, 0)`: the product wraps to 0 and a World with
an empty area is returned. -/
theorem NewWorld_nonpositive_witness :
    (((-2 ^ 62 : Int) ≤ 0 ∨ (4 : Int) ≤ 0) ∧ wrapInt (-2 ^ 62 * 4) = 0) ∧
    (((∃ e, NewWorld (-2 ^ 62) 4 0 countingRand = .error e) ↔
      ((0 : Int) < 0 ∨ wrapInt (-2 ^ 62 * 4) < 0)) ∧
    ((0 : Int) ≤ 0 → 0 ≤ wrapInt (-2 ^ 62 * 4) →
      NewWorld (-2 ^ 62) 4 0 countingRand =
        .ok ({ area := List.replicate (wrapInt (-2 ^ 62 * 4)).toNat 0, width := -2 ^ 62,
               height := 4 }, countingRand))) :=
  ⟨⟨Or.inl (by decide), by decide⟩,
    NewWorld_nonpositive (-2 ^ 62) 4 0 countingRand (Or.inl (by decide))⟩

/-- C17: `Update` is total on valid grids.  For a World with `width > 0`, `height > 0` and
`len(area) = width*height`, `Update` returns a new generation, and at every cell `(x, y)` of
the loops the index `y*width+x` is in `[0, width*height)`, so the read of `area` and the write
to a buffer of that length succeed, as does every read `a[y2*width+x2]` of `neighbourCount`
that passes its bounds check. -/
theorem Update_total (w : World) (r : Rand) (_hw : 0 < w.width) (_hh : 0 < w.height)
    (hlen : (w.area.length : Int) = w.width * w.height) :
    (∃ w1 r1, w.Update r = .ok (w1, r1)) ∧
    ∀ x y, 0 ≤ x → x < w.width → 0 ≤ y → y < w.height →
      (0 ≤ y * w.width + x ∧ y * w.width + x < w.width * w.height) ∧
      (∃ cur, sliceGet w.area (y * w.width + x) = .ok cur) ∧
      (∀ (next : List Int) (v : Int), (next.length : Int) = w.width * w.height →
        ∃ next1, sliceSet next (y * w.width + x) v = .ok next1) ∧
      (∃ pop, neighbourCount w.area w.width w.height x y = .ok pop) ∧
      (∀ i j : Int, ¬ (x + i < 0 ∨ y + j < 0 ∨ w.width ≤ x + i ∨ w.height ≤ y + j) →
        (0 ≤ (y + j) * w.width + (x + i) ∧ (y + j) * w.width + (x + i) < w.width * w.height) ∧
        ∃ v, sliceGet w.area ((y + j) * w.width + (x + i)) = .ok v) := by
  constructor
  · obtain ⟨w1, r1, hrun, _⟩ := Update_spec w r hlen
    exact ⟨w1, r1, hrun⟩
  · intro x y hx0 hx hy0 hy
    have hidx := idx_bounds hx0 hx hy0 hy
    refine ⟨hidx, ⟨_, sliceGet_of_lt hidx.1 (by rw [hlen]; exact hidx.2)⟩, ?_,
      ⟨_, neighbourCount_eq_mooreCount hlen x y⟩, ?_⟩
    · intro next v hnext
      exact ⟨_, sliceSet_of_lt hidx.1 (by rw [hnext]; exact hidx.2) v⟩
    · intro i j hg
      have hin : 0 ≤ x + i ∧ x + i < w.width ∧ 0 ≤ y + j ∧ y + j < w.height := by omega
      have hidx2 := idx_bounds hin.1 hin.2.1 hin.2.2.1 hin.2.2.2
      exact ⟨hidx2, _, sliceGet_of_lt hidx2.1 (by rw [hlen]; exact hidx2.2)⟩

/-- Witness of C17 on the blinker. -/
theorem Update_total_witness :
    (0 < blinker.width ∧ 0 < blinker.height ∧
      (blinker.area.length : Int) = blinker.width * blinker.height) ∧
    ∃ w1 r1, blinker.Update countingRand = .ok (w1, r1) :=
  ⟨⟨by decide, by decide, by decide⟩,
    (Update_total blinker countingRand (by decide) (by decide) (by decide)).1⟩

/-- C18: the result of the rule table of `Update` does not depend on the order in which the
four cases are tried.  Whenever two case guards hold for the same count and cell they assign
the same outcome, and two different cases overlap only as rule 2 and rule 4 at `pop = 3` with
a live cell; the switch over the cases in source order is the loop body of `Update`; and for
every permutation of the four cases the permuted `Update`, run on the same World with the
same random source, returns the same World and random source as `Update`. -/
theorem Update_case_order (order : List Rule) (hperm : order.Perm sourceOrder)
    (w : World) (r : Rand) (hlen : (w.area.length : Int) = w.width * w.height) :
    (∀ (y x pop : Int) (st : List Int × Rand) (k1 k2 : Rule),
      caseGuard w y x pop k1 = .ok true → caseGuard w y x pop k2 = .ok true →
        caseBody w y x st k1 = caseBody w y x st k2 ∧
        (k1 ≠ k2 → pop = 3 ∧ (∃ cur, sliceGet w.area (y * w.width + x) = .ok cur ∧ cur > 0) ∧
          ((k1 = .rule2 ∧ k2 = .rule4) ∨ (k1 = .rule4 ∧ k2 = .rule2)))) ∧
    (∀ (y x : Int) (st : List Int × Rand),
      updateCellOrdered sourceOrder w y x st = updateCell w y x st) ∧
    ∃ w1 r1, w.UpdateOrdered order r = .ok (w1, r1) ∧ w.Update r = .ok (w1, r1) := by
  refine ⟨fun y x pop st k1 k2 h1 h2 =>
    ⟨caseBody_overlap st h1 h2, caseGuard_overlap h1 h2⟩,
    updateCellOrdered_source w, ?_⟩
  obtain ⟨w1, r1, hrun, _⟩ := Update_spec w r hlen
  exact ⟨w1, r1, (UpdateOrdered_perm hlen hperm r).trans hrun, hrun⟩

/-- Witness of C18: the blinker updated with the cases tried in reverse order. -/
theorem Update_case_order_witness :
    ([Rule.rule4, Rule.rule3, Rule.rule2, Rule.rule1].Perm sourceOrder ∧
      (blinker.area.length : Int) = blinker.width * blinker.height) ∧
    ∃ w1 r1, blinker.UpdateOrdered [.rule4, .rule3, .rule2, .rule1] countingRand =
        .ok (w1, r1) ∧ blinker.Update countingRand = .ok (w1, r1) :=
  ⟨⟨by decide, by decide⟩,
    (Update_case_order [.rule4, .rule3, .rule2, .rule1] (by decide) blinker countingRand
      (by decide)).2.2⟩

/-- C19: the all-dead grid is a fixed point.  For a World with `len(area) = width*height` in
which every cell is `<= 0`, `Update` yields an area of the same length in which every cell is
`0` and consumes no random draw (the random source is returned as it was); and after any
number `k >= 1` of `Update` calls the world is still all `0`, with no draw consumed. -/
theorem Update_all_dead_fixed (w : World) (r : Rand)
    (hlen : (w.area.length : Int) = w.width * w.height) (hdead : ∀ v ∈ w.area, v ≤ 0) :
    (∃ w1, w.Update r = .ok (w1, r) ∧ w1.area.length = w.area.length ∧
      ∀ v ∈ w1.area, v = 0) ∧
    ∀ k : Nat, 0 < k →
      ∃ wk, updateN k w r = .ok (wk, r) ∧ wk.area.length = w.area.length ∧
        ∀ v ∈ wk.area, v = 0 := by
  constructor
  · obtain ⟨w1, hrun, _, _, hl, hz⟩ := Update_dead_step w r hlen hdead
    exact ⟨w1, hrun, by omega, hz⟩
  · intro k hk
    obtain ⟨wk, hrun, _, _, hl, _, hz⟩ := updateN_dead k w r hlen hdead
    exact ⟨wk, hrun, by omega, hz hk⟩

/-- Witness of C19 on a 3x3 world holding only zero and negative values. -/
theorem Update_all_dead_fixed_witness :
    ((deadWorld.area.length : Int) = deadWorld.width * deadWorld.height ∧
      ∀ v ∈ deadWorld.area, v ≤ 0) ∧
    ((∃ w1, deadWorld.Update countingRand = .ok (w1, countingRand) ∧
      w1.area.length = deadWorld.area.length ∧ ∀ v ∈ w1.area, v = 0) ∧
    ∀ k : Nat, 0 < k →
      ∃ wk, updateN k deadWorld countingRand = .ok (wk, countingRand) ∧
        wk.area.length = deadWorld.area.length ∧ ∀ v ∈ wk.area, v = 0) :=
  ⟨⟨by decide, by decide⟩,
    Update_all_dead_fixed deadWorld countingRand (by decide) (by decide)⟩

/-- C20: the index-to-coordinate mapping of `Draw` agrees with the row-major layout for the
world that `main` builds.  For every index `i` with `0 <= i < screenWidth*screenHeight`, the
coordinates `y = i / screenWidth` and `x = i % screenHeight` satisfy `0 <= x < screenWidth`,
`0 <= y < screenHeight` and `y*screenWidth + x = i`; this rests on
`screenWidth = screenHeight`: for any two different positive constants the same formulas
send some index of the area to a wrong position. -/
theorem drawCoords_row_major (i : Int) (h0 : 0 ≤ i) (h1 : i < screenWidth * screenHeight) :
    (0 ≤ (drawCoords i).1 ∧ (drawCoords i).1 < screenWidth) ∧
    (0 ≤ (drawCoords i).2 ∧ (drawCoords i).2 < screenHeight) ∧
    (drawCoords i).2 * screenWidth + (drawCoords i).1 = i ∧
    screenWidth = screenHeight ∧
    (∀ sw sh : Int, 0 < sw → 0 < sh → sw ≠ sh →
      ∃ j, 0 ≤ j ∧ j < sw * sh ∧
        ¬ ((drawCoordsOf sw sh j).1 < sw ∧
          (drawCoordsOf sw sh j).2 * sw + (drawCoordsOf sw sh j).1 = j)) := by
  have hx : (drawCoords i).1 = i % 16 := Int.tmod_eq_emod h0 (by decide)
  have hy : (drawCoords i).2 = i / 16 := Int.tdiv_eq_ediv h0 (by decide)
  have h16 : screenWidth * screenHeight = 256 := by decide
  rw [h16] at h1
  rw [hx, hy]
  simp only [screenWidth, screenHeight]
  refine ⟨by omega, by omega, by omega, trivial, ?_⟩
  intro sw sh hsw hsh hne
  rcases lt_or_gt_of_ne hne with hlt | hgt
  · refine ⟨sw, hsw.le, ?_, ?_⟩
    · have h2 : sw * 2 ≤ sw * sh := mul_le_mul_of_nonneg_left (by omega) hsw.le
      omega
    · have hxs : (drawCoordsOf sw sh sw).1 = sw := by
        show Int.tmod sw sh = sw
        rw [Int.tmod_eq_emod hsw.le hsh.le]
        exact Int.emod_eq_of_lt hsw.le hlt
      rw [hxs]
      omega
  · refine ⟨sh, hsh.le, ?_, ?_⟩
    · have h2 : 2 * sh ≤ sw * sh := mul_le_mul_of_nonneg_right (by omega) hsh.le
      omega
    · have hxs : (drawCoordsOf sw sh sh).1 = 0 := by
        show Int.tmod sh sh = 0
        rw [Int.tmod_eq_emod hsh.le hsh.le]
        exact Int.emod_self
      have hys : (drawCoordsOf sw sh sh).2 = 0 := by
        show Int.tdiv sh sw = 0
        rw [Int.tdiv_eq_ediv hsh.le hsw.le]
        exact Int.ediv_eq_zero_of_lt hsh.le hgt
      rw [hxs, hys]
      omega

/-- Witness of C20 at the last index of the 16x16 area. -/
theorem drawCoords_row_major_witness :
    ((0 : Int) ≤ 255 ∧ (255 : Int) < screenWidth * screenHeight) ∧
    ((0 ≤ (drawCoords 255).1 ∧ (drawCoords 255).1 < screenWidth) ∧
    (0 ≤ (drawCoords 255).2 ∧ (drawCoords 255).2 < screenHeight) ∧
    (drawCoords 255).2 * screenWidth + (drawCoords 255).1 = 255) :=
  ⟨⟨by decide, by decide⟩,
    ⟨(drawCoords_row_major 255 (by decide) (by decide)).1,
      (drawCoords_row_major 255 (by decide) (by decide)).2.1,
      (drawCoords_row_major 255 (by decide) (by decide)).2.2.1⟩⟩

end GameOfDans
